import Mathlib

/-!
# Verification of the carousel bot (`bot.py`, `carousel_cache.py`)

A shallow embedding of the conversation state machine, the AI generation
gateway with its fallback and truncation-repair cascade, and the content
store of the carousel-generator bot, together with proofs about the
spec-level claims.

Conventions:
* Python strings are modelled as Lean `String`/`List Char`.
* Python exceptions are modelled as `Except`/`Option` results; an exception
  message raised by the code is carried as the `String` payload of
  `Except.error`.
* Machine-level concerns (the Telegram transport, the event loop, actual
  network and file I/O) are modelled by explicit parameters describing the
  outcome of each external call.
-/

namespace Carousels

/-! ## Python string primitives -/

/-- The brace characters, named so they can be used in code without literal
braces appearing in strings. -/
def lbrace : Char := Char.ofNat 123

def rbrace : Char := Char.ofNat 125

/-- ASCII whitespace stripped by Python `str.strip()` (space, tab, newline,
carriage return, vertical tab, form feed).  Python also strips non-ASCII
Unicode whitespace, which never occurs in the strings this development
reasons about. -/
def isPyWs (c : Char) : Bool :=
  c = ' ' || c = '\t' || c = '\n' || c = '\r' || c = Char.ofNat 11 || c = Char.ofNat 12

/-- Python `str.strip()` on a list of characters: drop leading and trailing
whitespace. -/
def stripChars (l : List Char) : List Char :=
  ((l.dropWhile isPyWs).reverse.dropWhile isPyWs).reverse

/-- Python `str.strip()`. -/
def pyStrip (s : String) : String :=
  String.mk (stripChars s.toList)

/-- Python `str.count(c)` for a single-character needle. -/
def pyCount (s : String) (c : Char) : Nat :=
  s.toList.count c

/-- Python `needle in haystack` for strings: `needle` occurs as a
contiguous substring. -/
def pyIn (needle haystack : String) : Bool :=
  haystack.toList.tails.any (fun t => needle.toList.isPrefixOf t)

/-- Python `s[:n]` (slice of the first `n` code points). -/
def pyTake (s : String) (n : Nat) : String :=
  String.mk (s.toList.take n)

/-! ## `CarouselBot.fix_truncated_json` (src/bot.py lines 228-256)

```python
content = truncated_json.strip()
open_braces = content.count('{'); close_braces = content.count('}')
open_brackets = content.count('['); close_brackets = content.count(']')
missing_braces = open_braces - close_braces
missing_brackets = open_brackets - close_brackets
quote_count = content.count('"')
if quote_count % 2 == 1:
    content += '"'
content += ']' * missing_brackets
content += '}' * missing_braces
return content
```

Python `']' * n` is empty for `n ≤ 0`; truncated `Nat` subtraction models
`open - close` composed with that clamping. -/

def fix_truncated_json (truncated_json : String) : String :=
  let content := pyStrip truncated_json
  let missing_braces : Nat := pyCount content lbrace - pyCount content rbrace
  let missing_brackets : Nat := pyCount content '[' - pyCount content ']'
  let quote_count : Nat := pyCount content '\"'
  let content := if quote_count % 2 = 1 then content ++ "\"" else content
  let content := content ++ String.mk (List.replicate missing_brackets ']')
  content ++ String.mk (List.replicate missing_braces rbrace)

/-! ## `CarouselBot.create_shorter_prompt` (src/bot.py lines 258-306) -/

/-- The literal shorter-prompt template of `create_shorter_prompt`, as a
function of the extracted topic (the body of the Python f-string, before
`.strip()`).  Literal braces are written `\x7b`/`\x7d`. -/
def shorterPromptTemplate (topic_part : String) : String :=
  "\nCreate a carousel post in JSON format with 4-6 cards maximum. Keep content concise but meaningful.\n\nStructure:\n\x7b\n  \"cards\": [\n    \x7b\n      \"type\": \"hook\",\n      \"header\": \"ENGAGING TITLE<br>SUBTITLE\",\n      \"text\": \"\"\n    \x7d,\n    \x7b\n      \"type\": \"main\", \n      \"header\": \"Short descriptive header\",\n      \"text\": \"1. First key point (2-3 sentences max)\\n\\n2. Second key point (2-3 sentences max)\\n\\n🔑 Key insight\"\n    \x7d,\n    // ... 2-4 more main cards with headers and 1-2 numbered points each\n  ]\n\x7d\n\nRequirements:\n- Write in Polish\n- Use \"ty\" (you) form\n- Each main card MUST have a descriptive header (max 1 sentence)\n- Combine 2 points per card when space allows\n- Keep each point to 2-3 sentences maximum\n- Focus on the most important, actionable advice\n- Ensure valid JSON format\n- Maximum 6 cards total\n\nTopic: " ++ topic_part ++ "\n\nIMPORTANT: Respond ONLY with valid JSON. No additional text or explanations.\n"

/-- `CarouselBot.create_shorter_prompt`: for content-generation prompts
(recognised by marker substrings) build the fixed shorter template around
the extracted topic; otherwise truncate the prompt to 2000 characters and
append a conciseness instruction. -/
def create_shorter_prompt (original_prompt : String) : String :=
  if pyIn ("CARD COUNT FLEXIBILITY") original_prompt
      || pyIn ("cards can vary from") original_prompt then
    let topic_part :=
      if pyIn ("Topic:") original_prompt then
        (((original_prompt.splitOn ("Topic:")).getLastD ("")).splitOn ("\n")).headD ("")
      else "Personal development"
    pyStrip (shorterPromptTemplate topic_part)
  else
    pyTake original_prompt 2000 ++ "\n\nIMPORTANT: Keep response concise and in valid JSON format."

/-! ## A model of Python `json.loads`

`bot.py` validates AI output with `json.loads`.  The model below follows
CPython's `json` decoder on `str` input: strict JSON values plus the
CPython extensions `NaN`, `Infinity` and `-Infinity`; surrounding
whitespace (space, tab, newline, carriage return) is ignored; strings
decode escapes (including `\uXXXX` with surrogate-pair combination) and
reject unescaped control characters.  Numbers are kept as their lexemes
(CPython converts them to `int`/`float`; no claim compares numerals written
differently, so the lexeme is a faithful identity).  Objects are kept as
the parsed member sequence (CPython folds them into a `dict`, last
duplicate key winning; no claim involves duplicate keys). -/

/-- JSON whitespace accepted by the decoder around tokens. -/
def wsJ (c : Char) : Bool :=
  c = ' ' || c = '\t' || c = '\n' || c = '\r'

/-- Parsed JSON value. -/
inductive Json where
  | jnull
  | jbool (b : Bool)
  | jnum (lexeme : List Char)
  | jstr (s : List Char)
  | jarr (elems : List Json)
  | jobj (members : List (List Char × Json))

/-- Value of one hex digit. -/
def hexVal (c : Char) : Option Nat :=
  if '0' ≤ c ∧ c ≤ '9' then some (c.toNat - '0'.toNat)
  else if 'a' ≤ c ∧ c ≤ 'f' then some (c.toNat - 'a'.toNat + 10)
  else if 'A' ≤ c ∧ c ≤ 'F' then some (c.toNat - 'A'.toNat + 10)
  else none

/-- Value of a 4-hex-digit escape. -/
def hex4 (a b c d : Char) : Option Nat :=
  match hexVal a, hexVal b, hexVal c, hexVal d with
  | some x, some y, some z, some w => some (((x * 16 + y) * 16 + z) * 16 + w)
  | _, _, _, _ => none

/-- Decode one simple escape character. -/
def escChar (e : Char) : Option Char :=
  if e = '\"' then some '\"'
  else if e = '\\' then some '\\'
  else if e = '/' then some '/'
  else if e = 'b' then some (Char.ofNat 8)
  else if e = 'f' then some (Char.ofNat 12)
  else if e = 'n' then some '\n'
  else if e = 'r' then some '\r'
  else if e = 't' then some '\t'
  else none

/-- Scan a JSON string body (the opening quote already consumed): returns
the decoded contents and the characters after the closing quote.  Each
`\uXXXX` escape decodes through `Char.ofNat` on its own (CPython further
combines a high/low surrogate escape pair into one astral character;
acceptance is identical either way, and no claim inspects the decoded
contents of surrogate escapes, so the per-escape decoding is kept). -/
def pstr : List Char → Option (List Char × List Char)
  | [] => none
  | c :: rest =>
    if c = '\"' then some ([], rest)
    else if c = '\\' then
      match rest with
      | [] => none
      | e :: rest2 =>
        if e = 'u' then
          match rest2 with
          | a :: b :: c3 :: d :: rest3 =>
            match hex4 a b c3 d with
            | none => none
            | some n =>
              match pstr rest3 with
              | some (s, r) => some (Char.ofNat n :: s, r)
              | none => none
          | _ => none
        else
          match escChar e with
          | some d =>
            match pstr rest2 with
            | some (s, r) => some (d :: s, r)
            | none => none
          | none => none
    else if c.toNat < 0x20 then none
    else
      match pstr rest with
      | some (s, r) => some (c :: s, r)
      | none => none

/-- Characters a number token may contain (the decoder scans a maximal run
of these and then validates it against the JSON number grammar). -/
def isNumChar (c : Char) : Bool :=
  c.isDigit || c = '.' || c = 'e' || c = 'E' || c = '+' || c = '-'

/-- Drop a run of decimal digits. -/
def chompDigits (l : List Char) : List Char :=
  l.dropWhile Char.isDigit

/-- Consume `0 | [1-9][0-9]*`. -/
def chompUInt : List Char → Option (List Char)
  | [] => none
  | c :: t => if c = '0' then some t else if c.isDigit then some (chompDigits t) else none

/-- Consume the integer part `-? (0 | [1-9][0-9]*)`. -/
def chompInt : List Char → Option (List Char)
  | '-' :: t => chompUInt t
  | l => chompUInt l

/-- Consume an optional fraction part `(\.[0-9]+)?`. -/
def chompFrac : List Char → Option (List Char)
  | '.' :: t =>
    (match t with
     | c :: _ => if c.isDigit then some (chompDigits t) else none
     | [] => none)
  | l => some l

/-- Consume an optional exponent part `([eE][+-]?[0-9]+)?`. -/
def chompExp : List Char → Option (List Char)
  | [] => some []
  | c :: t =>
    if c = 'e' ∨ c = 'E' then
      let t2 := match t with
        | s :: u => if s = '+' ∨ s = '-' then u else s :: u
        | [] => []
      match t2 with
      | d :: _ => if d.isDigit then some (chompDigits t2) else none
      | [] => none
    else some (c :: t)

/-- Whether a token satisfies the JSON number grammar
`-?(0|[1-9][0-9]*)(\.[0-9]+)?([eE][+-]?[0-9]+)?`. -/
def numOk (l : List Char) : Bool :=
  match chompInt l with
  | none => false
  | some r1 =>
    match chompFrac r1 with
    | none => false
    | some r2 =>
      match chompExp r2 with
      | none => false
      | some r3 => r3.isEmpty

/-- Recognise a literal constant (`true`, `null`, `NaN`, ...): CPython's
scanner compares a slice of the input against the constant and advances
past it. -/
def pLit (lit : List Char) (out : Json) (t : List Char) :
    Option (Json × List Char) :=
  if lit.isPrefixOf t then some (out, t.drop lit.length) else none

mutual

/-- Parse one JSON value starting at the head of the input (leading
whitespace already consumed).  `fuel` bounds the recursion; `json_loads`
supplies enough for any input. -/
def pv : Nat → List Char → Option (Json × List Char)
  | 0, _ => none
  | _ + 1, [] => none
  | fuel + 1, c :: t =>
    if c = lbrace then
      match t.dropWhile wsJ with
      | d :: t2 => if d = rbrace then some (.jobj [], t2) else pmems fuel (d :: t2) []
      | [] => none
    else if c = '[' then
      match t.dropWhile wsJ with
      | d :: t2 => if d = ']' then some (.jarr [], t2) else pelems fuel (d :: t2) []
      | [] => none
    else if c = '\"' then
      match pstr t with
      | some (s, r) => some (.jstr s, r)
      | none => none
    else if c = 't' then pLit ['r', 'u', 'e'] (.jbool true) t
    else if c = 'f' then pLit ['a', 'l', 's', 'e'] (.jbool false) t
    else if c = 'n' then pLit ['u', 'l', 'l'] .jnull t
    else if c = 'N' then pLit ['a', 'N'] (.jnum ['N', 'a', 'N']) t
    else if c = 'I' then
      pLit ['n', 'f', 'i', 'n', 'i', 't', 'y']
        (.jnum ['I', 'n', 'f', 'i', 'n', 'i', 't', 'y']) t
    else if c = '-' then
      if ['I', 'n', 'f', 'i', 'n', 'i', 't', 'y'].isPrefixOf t then
        some (.jnum ['-', 'I', 'n', 'f', 'i', 'n', 'i', 't', 'y'], t.drop 8)
      else
        let sp := (c :: t).span isNumChar
        if numOk sp.1 then some (.jnum sp.1, sp.2) else none
    else if c.isDigit then
      let sp := (c :: t).span isNumChar
      if numOk sp.1 then some (.jnum sp.1, sp.2) else none
    else none

/-- Parse the elements of a non-empty array, the input positioned at the
first element; `acc` holds earlier elements in reverse. -/
def pelems : Nat → List Char → List Json → Option (Json × List Char)
  | 0, _, _ => none
  | fuel + 1, l, acc =>
    match pv fuel l with
    | none => none
    | some (v, r) =>
      match r.dropWhile wsJ with
      | d :: r2 =>
        if d = ',' then pelems fuel (r2.dropWhile wsJ) (v :: acc)
        else if d = ']' then some (.jarr (v :: acc).reverse, r2)
        else none
      | [] => none

/-- Parse the members of a non-empty object, the input positioned at the
first key; `acc` holds earlier members in reverse. -/
def pmems : Nat → List Char → List (List Char × Json) → Option (Json × List Char)
  | 0, _, _ => none
  | fuel + 1, l, acc =>
    match l with
    | [] => none
    | c :: t =>
      if c = '\"' then
        match pstr t with
        | none => none
        | some (k, r) =>
          match r.dropWhile wsJ with
          | d :: r2 =>
            if d = ':' then
              match pv fuel (r2.dropWhile wsJ) with
              | none => none
              | some (v, r4) =>
                match r4.dropWhile wsJ with
                | e :: r6 =>
                  if e = ',' then pmems fuel (r6.dropWhile wsJ) ((k, v) :: acc)
                  else if e = rbrace then some (.jobj ((k, v) :: acc).reverse, r6)
                  else none
                | [] => none
            else none
          | [] => none
      else none

end

/-- Python `json.loads`: skip leading whitespace, parse one value, require
only whitespace after it.  The fuel `length + 1` suffices because every
unit of fuel spent accompanies at least one consumed character. -/
def json_loads (s : String) : Option Json :=
  match pv (s.toList.length + 1) (s.toList.dropWhile wsJ) with
  | some (v, r) => if r.all wsJ then some v else none
  | none => none

/-- Characters that can begin a JSON value in the decoder. -/
def jStart (c : Char) : Bool :=
  c = lbrace || c = '[' || c = '\"' || c = 't' || c = 'f' || c = 'n' ||
    c = 'N' || c = 'I' || c = '-' || c.isDigit

/-- Boundary condition under which a parse result is insensitive to what
follows: the following text is empty or does not begin with a number
character. -/
def okB (r : List Char) : Bool :=
  match r with
  | [] => true
  | c :: _ => !isNumChar c

/-- Split-and-extension property of a successful `pv` parse: the consumed
prefix ends in a non-whitespace character, and reparsing it with any
boundary-safe continuation and enough fuel succeeds identically. -/
def SplitV (l : List Char) (v : Json) (r : List Char) : Prop :=
  ∃ c, l = c ++ r ∧ (∃ c0 d, c = c0 ++ [d] ∧ isPyWs d = false) ∧
    ∀ r' g, okB r' = true → c.length + 1 ≤ g → pv g (c ++ r') = some (v, r')

/-- Split-and-extension property of a successful `pelems` parse. -/
def SplitE (l : List Char) (acc : List Json) (v : Json) (r : List Char) : Prop :=
  ∃ c, l = c ++ r ∧ (∃ c0, c = c0 ++ [']']) ∧
    ∀ r' g, c.length + 1 ≤ g → pelems g (c ++ r') acc = some (v, r')

/-- Split-and-extension property of a successful `pmems` parse. -/
def SplitM (l : List Char) (acc : List (List Char × Json)) (v : Json)
    (r : List Char) : Prop :=
  ∃ c, l = c ++ r ∧ (∃ c0, c = c0 ++ [rbrace]) ∧
    ∀ r' g, c.length + 1 ≤ g → pmems g (c ++ r') acc = some (v, r')

def PvP (f : Nat) : Prop := ∀ l v r, pv f l = some (v, r) → SplitV l v r

def PeP (f : Nat) : Prop :=
  ∀ l acc v r, pelems f l acc = some (v, r) → SplitE l acc v r

def PmP (f : Nat) : Prop :=
  ∀ l acc v r, pmems f l acc = some (v, r) → SplitM l acc v r

/-! ## `CarouselBot.generate_with_ai` (src/bot.py lines 96-226)

The gateway calls up to two backends.  A backend client being configured
(`if anthropic_client:` / `if openai_client:`) is modelled by an `Option`
of the backend's behaviour; the behaviour maps the request to either a
response or a raised exception.  The returned trace records each backend
request and each repair attempt, in order, so ordering claims are
observable; the trace is instrumentation and does not influence the
result. -/

/-- Outcome of one `anthropic_client.messages.create` call:
`response.content[0].text`, or any raised exception. -/
inductive AnthropicResult where
  | ok (text : String)
  | exn

/-- Outcome of one `openai_client.chat.completions.create` call:
`choices[0].message.content` (which may be `None`) together with
`choices[0].finish_reason`, or any raised exception. -/
inductive OpenAIResult where
  | ok (content : Option String) (finish_reason : String)
  | exn

/-- The configured backends.  The OpenAI behaviour takes the prompt and the
`max_completion_tokens` argument, so the initial call (8000) and the
shorter-prompt retry (6000) are distinguished. -/
structure Backends where
  anthropic : Option (String → AnthropicResult)
  openai : Option (String → Nat → OpenAIResult)

/-- One observable step of the gateway. -/
inductive CallEv where
  | primaryCall (prompt : String)
  | secondaryCall (prompt : String) (maxTokens : Nat)
  | repairAttempt
deriving DecidableEq

/-- Message of the exception raised when no client is available
(src/bot.py line 226); the spec calls this failure `GenerationNotConfigured`. -/
def noKeysMsg : String :=
  "No AI API keys configured. Please contact the administrator."

/-- Message of the exception raised when the OpenAI attempt fails
(src/bot.py line 223); the spec calls this failure `GenerationUnavailable`. -/
def bothUnavailableMsg : String :=
  "Both Claude and OpenAI are unavailable. Please try again later."

/-- Message of the truncation exception raised at src/bot.py line 217;
the spec calls this failure `GenerationTruncated`. -/
def truncatedMsg : String :=
  "Response was truncated and could not be repaired. Please try again or contact administrator."

/-- Message of the empty-response exception raised at src/bot.py line 178. -/
def emptyRespMsg : String :=
  "AI returned empty response. Please try again."

/-- The body of the `try:` block guarding the OpenAI attempt
(src/bot.py lines 164-220).  An `Except.error` is an exception escaping
that block (its message is the raised message, which the enclosing
`except` then replaces). -/
def openai_attempt (g : String → Nat → OpenAIResult) (prompt : String) :
    Except String String × List CallEv :=
  let tr : List CallEv := [.secondaryCall prompt 8000]
  match g prompt 8000 with
  | .exn => (.error "openai call raised", tr)
  | .ok content finish_reason =>
    -- `if not content or content.strip() == '':`
    match content with
    | none => (.error emptyRespMsg, tr)
    | some content =>
      if pyStrip content = "" then (.error emptyRespMsg, tr)
      else if finish_reason = "length" then
        match json_loads content with
        | some _ => (.ok content, tr)  -- truncated output is still valid JSON
        | none =>
          let fixed_content := fix_truncated_json content
          match json_loads fixed_content with
          | some _ => (.ok fixed_content, tr ++ [.repairAttempt])
          | none =>
            -- last resort: shorter prompt with reduced token ceiling
            let shorter_prompt := create_shorter_prompt prompt
            let tr := tr ++ [.repairAttempt, .secondaryCall shorter_prompt 6000]
            match g shorter_prompt 6000 with
            | .ok (some shorter_content) _ =>
              if pyStrip shorter_content ≠ "" then (.ok shorter_content, tr)
              else (.error truncatedMsg, tr)
            | .ok none _ => (.error truncatedMsg, tr)
            | .exn => (.error truncatedMsg, tr)
      else (.ok content, tr)

/-- The `if openai_client:` stage and the final no-keys fall-through
(src/bot.py lines 163-226): any exception from the OpenAI attempt is
caught and re-raised as the unavailability exception. -/
def openai_stage (b : Backends) (prompt : String) (tr1 : List CallEv) :
    Except String String × List CallEv :=
  match b.openai with
  | some g =>
    let (r, tr2) := openai_attempt g prompt
    (match r with
     | .ok c => .ok c
     | .error _ => .error bothUnavailableMsg,
     tr1 ++ tr2)
  | none => (.error noKeysMsg, tr1)

/-- `CarouselBot.generate_with_ai`: try Claude first; on any exception fall
through to the OpenAI stage. -/
def generate_with_ai (b : Backends) (prompt : String) :
    Except String String × List CallEv :=
  match b.anthropic with
  | some f =>
    match f prompt with
    | .ok text => (.ok text, [.primaryCall prompt])
    | .exn => openai_stage b prompt [.primaryCall prompt]
  | none => openai_stage b prompt []

/-! ## Sessions and the conversation state machine (src/bot.py)

A Python session is a dict; the fields below are the keys the modelled
handlers read or write.  A missing key is `none` (reading it raises
`KeyError`, which the handlers' `try`/`except` blocks catch). -/

structure Session where
  state : String
  style : Option String := none
  topic : Option String := none
  generated_content : Option String := none
  html_content : Option String := none
  published_url : Option String := none
  carousel_id : Option String := none
deriving DecidableEq

/-- The session `start_command` installs: `{'state': 'main_menu'}`. -/
def mainMenuSession : Session := { state := "main_menu" }

/-- The global `user_sessions` map, keyed by the Telegram user id. -/
def Sessions := List (Int × Session)

/-- `user_id in user_sessions` / `user_sessions[user_id]`. -/
def lookupSession (ss : Sessions) (uid : Int) : Option Session :=
  (List.find? (fun p => p.1 = uid) ss).map (fun p => p.2)

/-- `user_sessions[user_id] = sess` (replace or insert). -/
def putSession (ss : Sessions) (uid : Int) (sess : Session) : Sessions :=
  List.filter (fun p => decide (p.1 ≠ uid)) ss ++ [(uid, sess)]

/-- The user-visible outcome of a handler, abstracting the transport
messages sent (src/bot.py sends these via Telegram). -/
inductive BotReply where
  | genError            -- "An error occurred while generating content..."
  | invalidFormat       -- "AI returned invalid format..."
  | contentPreview (content : String)
  | modifyError         -- "An error occurred during modification..."
  | invalidFormatModify -- "AI returned invalid format during modification..."
  | modifiedPreview (content : String)
  | publishError        -- "An error occurred during publishing..."
  | publishSuccess (public_url : String)
  | startMenu           -- the /start welcome menu
deriving DecidableEq

/-- `CarouselBot.start_command` (src/bot.py lines 316-342): installs a
fresh `{'state': 'main_menu'}` session for the user (and idempotently
initialises the database, a store-side effect outside the session map). -/
def start_command (ss : Sessions) (uid : Int) : Sessions × BotReply :=
  (putSession ss uid mainMenuSession, .startMenu)

/-- Which handler a text message is dispatched to, one constructor per
branch of `handle_message` (src/bot.py lines 493-504). -/
inductive Dispatch where
  | startFlow           -- no session: run start_command
  | toGenerateContent
  | toGenerateImage
  | toGenerateSlideImage
  | toProcessImageUrl
  | toModifyContent
  | toModifyHtmlContent
  | noHandler           -- session exists but its state has no text handler
deriving DecidableEq

/-- `CarouselBot.handle_message` (src/bot.py lines 481-504): with no
session for the user, run `start_command` and return; otherwise dispatch
on the session's state.  The dispatched handlers' own session effects are
modelled separately (`generate_content`, `modify_content`, ...). -/
def handle_message (ss : Sessions) (uid : Int) : Sessions × Dispatch :=
  match lookupSession ss uid with
  | none => ((start_command ss uid).1, .startFlow)
  | some sess =>
    (ss,
     if sess.state = "awaiting_topic" then .toGenerateContent
     else if sess.state = "awaiting_image_description" then .toGenerateImage
     else if sess.state = "awaiting_image_description_for_slide" then .toGenerateSlideImage
     else if sess.state = "awaiting_image_url" then .toProcessImageUrl
     else if sess.state = "awaiting_modifications" then .toModifyContent
     else if sess.state = "awaiting_html_modifications" then .toModifyHtmlContent
     else .noHandler)

/-- The content-generation prompt built in `generate_content`
(src/bot.py lines 525-540) around the prompt-template file's contents. -/
def mkFullPrompt (prompt_template topic : String) : String :=
  "\n" ++ prompt_template ++ "\n\nTEMAT KARUZELI: " ++ topic ++
  "\n\nStwórz karuzelę na powyższy temat w formacie JSON zgodnie z podanym szablonem. \nPamiętaj o:\n- Użyciu formy \"ty\" \n- Kontraście między przeszłością a teraźniejszością\n- Konkretnych, relatable przykładach\n- Empatycznym tonie\n- Polskim języku\n- Zwróceniu TYLKO poprawnego JSON-a bez dodatkowych komentarzy\n\nWAŻNE: Odpowiedz TYLKO w formacie JSON. Nie dodawaj żadnych dodatkowych tekstów, wyjaśnień ani formatowania markdown. Zwróć tylko czysty, poprawny JSON zgodny z szablonem.\n"

/-- `CarouselBot.generate_content` (src/bot.py lines 506-608), as a
transition on the user's session.  `prompt_template` is the contents of
the style-dependent prompt file.  Any exception inside the handler's
`try` (gateway failure included) is caught and reported; JSON validation
failing reports the invalid-format error; only after validation succeeds
is the session updated (`dict.update`: other keys kept) to
`content_review` with the topic and the new content. -/
def generate_content (sess : Session) (topic : String) (b : Backends)
    (prompt_template : String) : Session × BotReply :=
  let full_prompt := mkFullPrompt prompt_template topic
  match (generate_with_ai b full_prompt).1 with
  | .error _ => (sess, .genError)
  | .ok generated_content =>
    match json_loads generated_content with
    | none => (sess, .invalidFormat)
    | some _ =>
      ({ sess with
          state := "content_review"
          topic := some topic
          generated_content := some generated_content },
       .contentPreview generated_content)

/-- The modification prompt built in `modify_content`
(src/bot.py lines 1438-1449). -/
def mkModificationPrompt (topic original_content modifications : String) : String :=
  "\nOto oryginalna treść karuzeli na temat \"" ++ topic ++ "\":\n\n" ++
  original_content ++
  "\n\nUżytkownik poprosił o następujące modyfikacje:\n" ++ modifications ++
  "\n\nZmodyfikuj treść karuzeli zgodnie z uwagami użytkownika, zachowując oryginalny format JSON i strukturę. \nWAŻNE: Odpowiedz TYLKO w formacie JSON. Nie dodawaj żadnych dodatkowych tekstów, wyjaśnień ani formatowania markdown. Zwróć tylko czysty, poprawny JSON zgodny z oryginalnym szablonem.\n"

/-- `CarouselBot.modify_content` (src/bot.py lines 1429-1512).  Reads
`session['generated_content']` and `session['topic']` (a missing key
raises `KeyError`, caught by the handler's `except`); on gateway failure
or invalid JSON the session is unchanged; on success the session is
updated to `content_review` with the modified content (other keys kept,
`topic` in particular). -/
def modify_content (sess : Session) (modifications : String) (b : Backends) :
    Session × BotReply :=
  match sess.generated_content, sess.topic with
  | some original_content, some topic =>
    let modification_prompt := mkModificationPrompt topic original_content modifications
    match (generate_with_ai b modification_prompt).1 with
    | .error _ => (sess, .modifyError)
    | .ok modified_content =>
      match json_loads modified_content with
      | none => (sess, .invalidFormatModify)
      | some _ =>
        ({ sess with
            state := "content_review"
            generated_content := some modified_content },
         .modifiedPreview modified_content)
  | _, _ => (sess, .modifyError)

/-! ## The content store (src/carousel_cache.py)

The `carousels` table is modelled as the list of its rows in insertion
order.  `created_at`/`updated_at` are `CURRENT_TIMESTAMP` seconds. -/

structure CarouselRow where
  carousel_id : String
  user_id : Int
  topic : String
  generated_content : String
  html_content : String
  public_url : Option String
  file_path : Option String
  created_at : Nat
deriving DecidableEq

/-- `CarouselCache.save_carousel` (src/carousel_cache.py lines 48-65),
success case: `INSERT OR REPLACE` keyed by the unique `carousel_id`
(SQLite deletes a conflicting row and appends the new one, timestamps
reset to now). -/
def save_carousel (store : List CarouselRow) (carousel_id : String) (user_id : Int)
    (topic generated_content html_content : String)
    (public_url file_path : Option String) (now : Nat) : List CarouselRow :=
  List.filter (fun r => decide (r.carousel_id ≠ carousel_id)) store ++
    [{ carousel_id := carousel_id
       user_id := user_id
       topic := topic
       generated_content := generated_content
       html_content := html_content
       public_url := public_url
       file_path := file_path
       created_at := now }]

/-- `CarouselCache.get_carousel` (src/carousel_cache.py lines 67-81),
success case: the row with the given id, if any. -/
def get_carousel (store : List CarouselRow) (carousel_id : String) :
    Option CarouselRow :=
  List.find? (fun r => r.carousel_id = carousel_id) store

/-! ## `CarouselBot.publish_carousel` (src/bot.py lines 1565-1622)

External effects are modelled by parameters: `cid` is the freshly
generated `uuid4`, `writeOk` tells whether the artifact file write
succeeds (an `aiofiles` write can raise), `storeOk` tells whether the
database insert succeeds (`save_carousel` catches its own exceptions and
returns a boolean, which `publish_carousel` ignores), `now` is the
current timestamp. -/

/-- The value of `BASE_URL` is configuration; theorems quantify over it. -/
def publish_carousel (sess : Session) (uid : Int) (cid : String) (baseUrl : String)
    (writeOk storeOk : Bool) (store : List CarouselRow) (now : Nat) :
    Session × List CarouselRow × BotReply :=
  match sess.html_content with
  | none => (sess, store, .publishError)  -- KeyError on session['html_content']
  | some html_content =>
    let filename := "carousel_" ++ cid ++ ".html"
    if writeOk = false then
      (sess, store, .publishError)  -- the file write raised; nothing mutated yet
    else
      let public_url := baseUrl ++ "/static/" ++ filename
      -- session updates happen before the store call in the source
      let sess' := { sess with published_url := some public_url, carousel_id := some cid }
      match sess.topic, sess.generated_content with
      | some topic, some generated_content =>
        let store' :=
          if storeOk then
            save_carousel store cid uid topic generated_content html_content
              (some public_url) (some ("static/" ++ filename)) now
          else store  -- save_carousel returned False; the result is ignored
        (sess', store', .publishSuccess public_url)
      | _, _ =>
        -- KeyError building the save_carousel call, after the session updates
        (sess', store, .publishError)

/-! ## `CarouselCache.get_carousel_stats` (src/carousel_cache.py lines 147-184) -/

/-- SQLite `LOWER`: ASCII lowercasing. -/
def lowerStr (s : String) : String :=
  s.map Char.toLower

/-- One row of `SELECT topic, COUNT(*) FROM carousels GROUP BY LOWER(topic)`:
for each distinct lowercased topic, a representative original `topic`
(SQLite exposes the bare column of some row of the group; the model picks
the first) and the group size. -/
def topicGroups (store : List CarouselRow) : List (String × Nat) :=
  (List.map (fun r => lowerStr r.topic) store).dedup.map (fun k =>
    ((match List.find? (fun r => lowerStr r.topic = k) store with
      | some r => r.topic
      | none => k),
     store.countP (fun r => lowerStr r.topic = k)))

/-- Insert into a list sorted by descending count, after entries with a
count at least as large (mirrors `ORDER BY count DESC`; ties are in an
unspecified order in SQL, the model keeps them stable). -/
def insertDesc (p : String × Nat) : List (String × Nat) → List (String × Nat)
  | [] => [p]
  | q :: t => if p.2 ≤ q.2 then q :: insertDesc p t else p :: q :: t

/-- Sort by descending count. -/
def sortDesc : List (String × Nat) → List (String × Nat)
  | [] => []
  | p :: t => insertDesc p (sortDesc t)

structure CarouselStats where
  total_carousels : Nat
  unique_users : Nat
  recent_carousels : Nat
  popular_topics : List (String × Nat)
deriving DecidableEq

/-- `CarouselCache.get_carousel_stats`, success case: the four aggregate
queries.  `recent_carousels` counts rows with
`created_at > datetime('now', '-1 day')`, i.e. within the trailing 86400
seconds of `now`. -/
def get_carousel_stats (now : Nat) (store : List CarouselRow) : CarouselStats :=
  { total_carousels := store.length
    unique_users := (List.map (fun r => r.user_id) store).dedup.length
    recent_carousels := (store.filter (fun r => now - 86400 < r.created_at)).length
    popular_topics := (sortDesc (topicGroups store)).take 5 }

/-! ## Theorems -/

/-- C4: for every prompt, with both backends configured, a primary that
always throws and a secondary that always succeeds (non-empty content,
not length-truncated), `generate_with_ai` returns the secondary's output,
and the call trace is exactly one primary call followed by one secondary
call: the secondary is never called before the primary has been tried
exactly once, and the primary is not retried. -/
theorem c4_fallback_ordering (f : String → AnthropicResult)
    (g : String → Nat → OpenAIResult) (prompt ct fr : String)
    (hf : ∀ p, f p = .exn)
    (hg : ∀ p mt, g p mt = .ok (some ct) fr)
    (hct : pyStrip ct ≠ "")
    (hfr : fr ≠ "length") :
    generate_with_ai ⟨some f, some g⟩ prompt =
      (.ok ct, [.primaryCall prompt, .secondaryCall prompt 8000]) := by
  simp only [generate_with_ai, hf, openai_stage, openai_attempt, hg]
  simp [hct, hfr]

/-- Witness for C4 at concrete backends. -/
theorem c4_fallback_ordering_witness :
    generate_with_ai ⟨some (fun _ => .exn), some (fun _ _ => .ok (some "x") "stop")⟩ "p" =
      (.ok "x", [.primaryCall "p", .secondaryCall "p" 8000]) :=
  c4_fallback_ordering (fun _ => .exn) (fun _ _ => .ok (some "x") "stop") "p" "x" "stop"
    (fun _ => rfl) (fun _ _ => rfl) (by decide) (by decide)

/-- C2 (code bug): with no backend configured, `generate_with_ai` raises
the not-configured exception without any backend call — but with only the
primary configured and throwing, it raises the same not-configured
exception (message "No AI API keys configured"), not the unavailability
exception, although the primary key is configured and was tried: the
fall-through after the primary reaches the no-keys `raise`. -/
theorem c2_exhaustion_vs_notconfigured_bug :
    generate_with_ai ⟨none, none⟩ "p" = (.error noKeysMsg, []) ∧
    generate_with_ai ⟨some (fun _ => .exn), none⟩ "p" =
      (.error noKeysMsg, [.primaryCall "p"]) ∧
    generate_with_ai ⟨some (fun _ => .exn), some (fun _ _ => .exn)⟩ "p" =
      (.error bothUnavailableMsg,
       [.primaryCall "p", .secondaryCall "p" 8000]) ∧
    noKeysMsg ≠ bothUnavailableMsg := by
  refine ⟨rfl, rfl, rfl, by decide⟩

/-- C1 (code bug): the truncation cascade of the secondary backend.  With
the secondary reporting `finish_reason = 'length'`:
(a) partial output that is valid JSON is returned as is;
(b) otherwise the bounded repair is applied and returned if it validates;
(c) otherwise the request is re-issued once with the programmatically
shortened prompt and the reduced ceiling 6000 < 8000, observably after
the repair attempt, and its non-empty output is returned;
(d) but when that retry also fails, the exception that escapes carries the
unavailability message, not the truncation message: the truncation
`raise` sits inside the same `try` whose `except` replaces it. -/
theorem c1_truncation_cascade :
    -- (a) the truncated payload "{}" is valid JSON and accepted as is
    generate_with_ai ⟨none, some (fun _ _ => .ok (some "\x7b\x7d") "length")⟩ "p" =
      (.ok "\x7b\x7d", [.secondaryCall "p" 8000]) ∧
    -- (b) "{\"a\": 1" is invalid, repaired to "{\"a\": 1}" which validates
    generate_with_ai ⟨none, some (fun _ _ => .ok (some "\x7b\"a\": 1") "length")⟩ "p" =
      (.ok "\x7b\"a\": 1\x7d", [.secondaryCall "p" 8000, .repairAttempt]) ∧
    -- (c) "{\"a\": " is invalid and its repair "{\"a\":}" still invalid:
    --     the shortened prompt is retried at ceiling 6000 after the repair
    --     attempt and its output returned
    generate_with_ai
      ⟨none, some (fun _ mt => if mt = 8000 then .ok (some "\x7b\"a\": ") "length"
                               else .ok (some "\x7b\x7d") "stop")⟩ "p" =
      (.ok "\x7b\x7d",
       [.secondaryCall "p" 8000, .repairAttempt,
        .secondaryCall (create_shorter_prompt "p") 6000]) ∧
    -- (d) when the retry also throws, the escaping failure is the
    --     unavailability exception, not the truncation exception
    generate_with_ai
      ⟨none, some (fun _ mt => if mt = 8000 then .ok (some "\x7b\"a\": ") "length"
                               else .exn)⟩ "p" =
      (.error bothUnavailableMsg,
       [.secondaryCall "p" 8000, .repairAttempt,
        .secondaryCall (create_shorter_prompt "p") 6000]) ∧
    bothUnavailableMsg ≠ truncatedMsg := by
  refine ⟨rfl, rfl, rfl, rfl, by decide⟩

/-- C10: a free-text message from a user with no session entry does not
reach any state handler: `handle_message` runs the start flow, which
installs a fresh main-menu session for that user. -/
theorem c10_no_session_starts_fresh (ss : Sessions) (uid : Int)
    (h : lookupSession ss uid = none) :
    handle_message ss uid = ((start_command ss uid).1, .startFlow) ∧
    lookupSession (start_command ss uid).1 uid = some mainMenuSession := by
  constructor
  · simp [handle_message, h]
  · simp only [start_command, putSession]
    induction ss with
    | nil => simp [lookupSession, List.find?]
    | cons p t ih =>
      by_cases hp : p.1 = uid
      · exact absurd h (by simp [lookupSession, List.find?, hp])
      · have ht : lookupSession t uid = none := by
          simp only [lookupSession, List.find?_cons] at h ⊢
          simpa [hp] using h
        simp [lookupSession, List.find?_cons, hp, ih ht]

/-- Witness for C10 on the empty session map. -/
theorem c10_no_session_starts_fresh_witness :
    handle_message [] 7 = ((start_command [] 7).1, .startFlow) ∧
    lookupSession (start_command [] 7).1 7 = some mainMenuSession :=
  c10_no_session_starts_fresh [] 7 rfl

/-- Looking up the freshly saved id after `save_carousel` finds exactly
the new row. -/
theorem get_carousel_after_save (l : List CarouselRow) (cid : String)
    (row : CarouselRow) (hrow : row.carousel_id = cid) :
    get_carousel (List.filter (fun r => decide (r.carousel_id ≠ cid)) l ++ [row]) cid =
      some row := by
  induction l with
  | nil => simp [get_carousel, List.find?, hrow]
  | cons r t ih =>
    by_cases hr : r.carousel_id = cid
    · simpa [List.filter_cons, hr] using ih
    · simpa [List.filter_cons, hr, get_carousel, List.find?_cons] using ih

/-- C3 (counterexample): a fully successful publish — file written, record
persisted, location exposed — leaves the session's state field at
`html_review`: there is no `Published` state to move to.  And with the
store insert failing, the publish still reports success and records the
public location in the session while no record is stored. -/
theorem c3_publish_counterexample :
    publish_carousel
      { state := "html_review", topic := some "t", generated_content := some "g",
        html_content := some "<h>" } 1 "id" "https://b" true true [] 0 =
      ({ state := "html_review", topic := some "t", generated_content := some "g",
         html_content := some "<h>",
         published_url := some "https://b/static/carousel_id.html",
         carousel_id := some "id" },
       [{ carousel_id := "id", user_id := 1, topic := "t", generated_content := "g",
          html_content := "<h>",
          public_url := some "https://b/static/carousel_id.html",
          file_path := some "static/carousel_id.html", created_at := 0 }],
       .publishSuccess "https://b/static/carousel_id.html") ∧
    publish_carousel
      { state := "html_review", topic := some "t", generated_content := some "g",
        html_content := some "<h>" } 1 "id" "https://b" true false [] 0 =
      ({ state := "html_review", topic := some "t", generated_content := some "g",
         html_content := some "<h>",
         published_url := some "https://b/static/carousel_id.html",
         carousel_id := some "id" },
       [],
       .publishSuccess "https://b/static/carousel_id.html") :=
  ⟨rfl, rfl⟩

/-- C3 as amended: publishing is atomic only with respect to the artifact
file write — if the write fails the session and store are unchanged and a
retryable error is surfaced; if it succeeds, the session keeps its
`html_review` state but records the derived public location (presence of
`published_url` is what marks publication; there is no distinct Published
state), success is reported, and the record is inserted into the store
when the store write succeeds — a store failure is returned as a boolean
that the handler ignores, so success is still reported with no record
stored. -/
theorem c3_publish_amended (sess : Session) (uid : Int) (cid baseUrl : String)
    (store : List CarouselRow) (now : Nat) (h tp gc : String)
    (hh : sess.html_content = some h) (htp : sess.topic = some tp)
    (hgc : sess.generated_content = some gc) :
    (∀ storeOk, publish_carousel sess uid cid baseUrl false storeOk store now =
        (sess, store, .publishError)) ∧
    (∀ storeOk,
      publish_carousel sess uid cid baseUrl true storeOk store now =
        ({ sess with
            published_url := some (baseUrl ++ "/static/" ++ ("carousel_" ++ cid ++ ".html")),
            carousel_id := some cid },
         if storeOk then
           save_carousel store cid uid tp gc h
             (some (baseUrl ++ "/static/" ++ ("carousel_" ++ cid ++ ".html")))
             (some ("static/" ++ ("carousel_" ++ cid ++ ".html"))) now
         else store,
         .publishSuccess (baseUrl ++ "/static/" ++ ("carousel_" ++ cid ++ ".html")))) ∧
    ({ sess with
        published_url := some (baseUrl ++ "/static/" ++ ("carousel_" ++ cid ++ ".html")),
        carousel_id := some cid } : Session).state = sess.state := by
  refine ⟨fun storeOk => ?_, fun storeOk => ?_, rfl⟩
  · simp [publish_carousel, hh]
  · cases storeOk <;> simp [publish_carousel, hh, htp, hgc]

/-- Witness for C3 as amended, on a concrete `html_review` session. -/
theorem c3_publish_amended_witness :
    publish_carousel
      { state := "html_review", topic := some "t", generated_content := some "g",
        html_content := some "<h>" } 1 "id" "https://b" false true [] 0 =
      ({ state := "html_review", topic := some "t", generated_content := some "g",
         html_content := some "<h>" }, [], .publishError) :=
  (c3_publish_amended
    { state := "html_review", topic := some "t", generated_content := some "g",
      html_content := some "<h>" } 1 "id" "https://b" [] 0 "<h>" "t" "g"
    rfl rfl rfl).1 true

/-- C8 (counterexample): the public location produced by a successful
publish with base URL `https://b` and generated id `x` is
`https://b/static/carousel_x.html`, which differs from the claimed
`{baseUrl}/static/{generatedId}.html` form `https://b/static/x.html`:
the filename carries a `carousel_` prefix in front of the generated id. -/
theorem c8_published_location_counterexample :
    (publish_carousel
      { state := "html_review", topic := some "t", generated_content := some "g",
        html_content := some "<h>" } 1 "x" "https://b" true true [] 0).2.2 =
      .publishSuccess "https://b/static/carousel_x.html" ∧
    "https://b/static/carousel_x.html" ≠ "https://b/static/x.html" :=
  ⟨rfl, by decide⟩

/-- C8 as amended: for every successful publish, the public location
stored in the session, shown to the user, and recorded in the Content
Store is exactly `{baseUrl}/static/carousel_{generatedId}.html`, and the
store holds a matching record keyed by the generated identifier. -/
theorem c8_published_location_amended (sess : Session) (uid : Int)
    (cid baseUrl : String) (store : List CarouselRow) (now : Nat)
    (h tp gc : String)
    (hh : sess.html_content = some h) (htp : sess.topic = some tp)
    (hgc : sess.generated_content = some gc) :
    (publish_carousel sess uid cid baseUrl true true store now).1.published_url =
      some (baseUrl ++ "/static/" ++ ("carousel_" ++ cid ++ ".html")) ∧
    (publish_carousel sess uid cid baseUrl true true store now).2.2 =
      .publishSuccess (baseUrl ++ "/static/" ++ ("carousel_" ++ cid ++ ".html")) ∧
    get_carousel (publish_carousel sess uid cid baseUrl true true store now).2.1 cid =
      some { carousel_id := cid, user_id := uid, topic := tp,
             generated_content := gc, html_content := h,
             public_url := some (baseUrl ++ "/static/" ++ ("carousel_" ++ cid ++ ".html")),
             file_path := some ("static/" ++ ("carousel_" ++ cid ++ ".html")),
             created_at := now } := by
  refine ⟨?_, ?_, ?_⟩
  · simp [publish_carousel, hh, htp, hgc]
  · simp [publish_carousel, hh, htp, hgc]
  · simp only [publish_carousel, hh, htp, hgc]
    simpa [save_carousel] using
      get_carousel_after_save store cid
        { carousel_id := cid, user_id := uid, topic := tp,
          generated_content := gc, html_content := h,
          public_url := some (baseUrl ++ "/static/" ++ ("carousel_" ++ cid ++ ".html")),
          file_path := some ("static/" ++ ("carousel_" ++ cid ++ ".html")),
          created_at := now } rfl

/-- Witness for C8 as amended at a concrete publish. -/
theorem c8_published_location_amended_witness :
    (publish_carousel
      { state := "html_review", topic := some "t", generated_content := some "g",
        html_content := some "<h>" } 1 "x" "https://b" true true [] 0).1.published_url =
      some "https://b/static/carousel_x.html" :=
  (c8_published_location_amended
    { state := "html_review", topic := some "t", generated_content := some "g",
      html_content := some "<h>" } 1 "x" "https://b" [] 0 "<h>" "t" "g"
    rfl rfl rfl).1

/-- C7: validation-failure atomicity of the two generation transitions.
Leaving `awaiting_topic` (`generate_content`) or `awaiting_modifications`
(`modify_content`): on a gateway failure, or when the generated output
fails JSON validation, the session is returned exactly as it was — state
and all stored fields untouched, previously stored content included — and
a retryable error is surfaced; the session is updated (to
`content_review`, with the new content, other fields kept) only when
validation succeeds. -/
theorem c7_validation_failure_atomicity (sess : Session) (topic mods : String)
    (b : Backends) (tmpl : String) :
    ((∀ e, (generate_with_ai b (mkFullPrompt tmpl topic)).1 = .error e →
        generate_content sess topic b tmpl = (sess, .genError)) ∧
     (∀ content, (generate_with_ai b (mkFullPrompt tmpl topic)).1 = .ok content →
        json_loads content = none →
        generate_content sess topic b tmpl = (sess, .invalidFormat)) ∧
     (∀ content v, (generate_with_ai b (mkFullPrompt tmpl topic)).1 = .ok content →
        json_loads content = some v →
        generate_content sess topic b tmpl =
          ({ sess with
              state := "content_review"
              topic := some topic
              generated_content := some content }, .contentPreview content))) ∧
    (∀ oc tp, sess.generated_content = some oc → sess.topic = some tp →
     ((∀ e, (generate_with_ai b (mkModificationPrompt tp oc mods)).1 = .error e →
        modify_content sess mods b = (sess, .modifyError)) ∧
      (∀ content, (generate_with_ai b (mkModificationPrompt tp oc mods)).1 = .ok content →
        json_loads content = none →
        modify_content sess mods b = (sess, .invalidFormatModify)) ∧
      (∀ content v, (generate_with_ai b (mkModificationPrompt tp oc mods)).1 = .ok content →
        json_loads content = some v →
        modify_content sess mods b =
          ({ sess with
              state := "content_review"
              generated_content := some content }, .modifiedPreview content)))) := by
  refine ⟨⟨fun e he => ?_, fun content hc hn => ?_, fun content v hc hv => ?_⟩,
          fun oc tp hoc htp => ⟨fun e he => ?_, fun content hc hn => ?_,
            fun content v hc hv => ?_⟩⟩ <;>
    simp_all [generate_content, modify_content]

/-- Witness for C7: a primary backend returning non-JSON leaves a concrete
session untouched in both transitions, with the retryable format error. -/
theorem c7_validation_failure_atomicity_witness :
    generate_content { state := "awaiting_topic", generated_content := some "old" }
      "t" ⟨some (fun _ => .ok "oops"), none⟩ "T" =
      ({ state := "awaiting_topic", generated_content := some "old" }, .invalidFormat) ∧
    modify_content
      { state := "awaiting_modifications", topic := some "t",
        generated_content := some "old" } "m" ⟨some (fun _ => .ok "oops"), none⟩ =
      ({ state := "awaiting_modifications", topic := some "t",
         generated_content := some "old" }, .invalidFormatModify) :=
  ⟨((c7_validation_failure_atomicity
      { state := "awaiting_topic", generated_content := some "old" } "t" "m"
      ⟨some (fun _ => .ok "oops"), none⟩ "T").1.2.1 "oops" rfl rfl),
   ((c7_validation_failure_atomicity
      { state := "awaiting_modifications", topic := some "t",
        generated_content := some "old" } "t" "m"
      ⟨some (fun _ => .ok "oops"), none⟩ "T").2 "old" "t" rfl rfl).2.1 "oops" rfl rfl⟩

/-- `str.strip()` only removes surrounding whitespace: the input splits as
whitespace, the stripped value, whitespace. -/
theorem strip_decomp (l : List Char) :
    ∃ a b, l = a ++ stripChars l ++ b ∧ (a ++ b).all isPyWs = true := by
  refine ⟨l.takeWhile isPyWs,
    ((l.dropWhile isPyWs).reverse.takeWhile isPyWs).reverse, ?_, ?_⟩
  · conv_lhs => rw [← List.takeWhile_append_dropWhile (p := isPyWs) (l := l)]
    rw [List.append_assoc]
    congr 1
    calc l.dropWhile isPyWs
        = (l.dropWhile isPyWs).reverse.reverse := (List.reverse_reverse _).symm
      _ = ((l.dropWhile isPyWs).reverse.takeWhile isPyWs ++
            (l.dropWhile isPyWs).reverse.dropWhile isPyWs).reverse := by
          rw [List.takeWhile_append_dropWhile]
      _ = stripChars l ++ ((l.dropWhile isPyWs).reverse.takeWhile isPyWs).reverse := by
          rw [List.reverse_append]; rfl
  · simp only [List.all_append, Bool.and_eq_true, List.all_eq_true]
    refine ⟨fun c hc => List.mem_takeWhile_imp hc, fun c hc => ?_⟩
    exact List.mem_takeWhile_imp (List.mem_reverse.mp hc)

/-- C6: `fix_truncated_json` is a bounded, purely syntactic fix-up.  The
output is the whitespace-stripped input followed by a closing suffix of
quote/bracket/brace characters whose length is exactly the computed
deficits (quote parity, unmatched `[`, unmatched `{` — zero when the
closers already dominate, as Python's `']' * n` is empty for `n ≤ 0`);
when the imbalance is only missing closers the repaired output is
balanced in counts (equal braces, equal brackets, even quotes); and the
input's prefix is never modified beyond trimming surrounding whitespace. -/
theorem c6_repair_bounded_syntactic (s : String) :
    (∃ suffix : List Char,
      (fix_truncated_json s).toList = (pyStrip s).toList ++ suffix ∧
      (∀ c ∈ suffix, c = '\"' ∨ c = ']' ∨ c = rbrace) ∧
      suffix.length =
        pyCount (pyStrip s) '\"' % 2 +
        (pyCount (pyStrip s) '[' - pyCount (pyStrip s) ']') +
        (pyCount (pyStrip s) lbrace - pyCount (pyStrip s) rbrace)) ∧
    (pyCount (pyStrip s) ']' ≤ pyCount (pyStrip s) '[' →
     pyCount (pyStrip s) rbrace ≤ pyCount (pyStrip s) lbrace →
       pyCount (fix_truncated_json s) '[' = pyCount (fix_truncated_json s) ']' ∧
       pyCount (fix_truncated_json s) lbrace = pyCount (fix_truncated_json s) rbrace ∧
       pyCount (fix_truncated_json s) '\"' % 2 = 0) ∧
    (∃ a b, s.toList = a ++ (pyStrip s).toList ++ b ∧ (a ++ b).all isPyWs = true) := by
  have hsplit : (fix_truncated_json s).toList =
      (pyStrip s).toList ++
        ((if pyCount (pyStrip s) '\"' % 2 = 1 then ['\"'] else []) ++
          List.replicate (pyCount (pyStrip s) '[' - pyCount (pyStrip s) ']') ']' ++
          List.replicate (pyCount (pyStrip s) lbrace - pyCount (pyStrip s) rbrace) rbrace) := by
    by_cases hq : pyCount (pyStrip s) '\"' % 2 = 1 <;>
      simp [fix_truncated_json, hq, String.data_append, List.append_assoc]
  refine ⟨⟨_, hsplit, ?_, ?_⟩, ?_, ?_⟩
  · intro c hc
    rcases List.mem_append.mp hc with h12 | h3
    · rcases List.mem_append.mp h12 with h1 | h2
      · split at h1
        · left; simpa using h1
        · cases h1
      · right; left; exact (List.mem_replicate.mp h2).2
    · right; right; exact (List.mem_replicate.mp h3).2
  · by_cases hq : pyCount (pyStrip s) '\"' % 2 = 1 <;>
      simp [hq, List.length_append] <;> omega
  · intro hbk hbc
    have count_fix : ∀ c : Char, pyCount (fix_truncated_json s) c =
        ((pyStrip s).toList ++
          ((if pyCount (pyStrip s) '\"' % 2 = 1 then ['\"'] else []) ++
            List.replicate (pyCount (pyStrip s) '[' - pyCount (pyStrip s) ']') ']' ++
            List.replicate (pyCount (pyStrip s) lbrace - pyCount (pyStrip s) rbrace)
              rbrace)).count c := by
      intro c
      show List.count c (fix_truncated_json s).toList = _
      rw [hsplit]
    rcases Nat.mod_two_eq_zero_or_one (pyCount (pyStrip s) '\"') with hq | hq
    all_goals
      refine ⟨?_, ?_, ?_⟩ <;>
        simp only [count_fix] <;>
        simp only [pyCount, String.toList] at hbk hbc hq ⊢ <;>
        simp [hq, List.count_append, List.count_replicate, lbrace, rbrace]
          at hbk hbc ⊢ <;>
        omega
  · have h := strip_decomp s.toList
    simpa [pyStrip] using h

/-- Witness for C6 balancedness at the concrete unbalanced input `"{"`. -/
theorem c6_repair_bounded_syntactic_witness :
    pyCount (fix_truncated_json ("\x7b")) '[' = pyCount (fix_truncated_json ("\x7b")) ']' ∧
    pyCount (fix_truncated_json ("\x7b")) lbrace =
      pyCount (fix_truncated_json ("\x7b")) rbrace ∧
    pyCount (fix_truncated_json ("\x7b")) '\"' % 2 = 0 :=
  (c6_repair_bounded_syntactic ("\x7b")).2.1 (by decide) (by decide)

/-! ## Parse metatheory: a successful parse splits the input and is
insensitive to boundary-safe continuations; `json_loads` is preserved by
`str.strip()`. -/

theorem dropWhile_head_false {p : Char → Bool} {l : List Char} {c : Char} {t : List Char}
    (h : l.dropWhile p = c :: t) : p c = false := by
  induction l with
  | nil => simp [List.dropWhile] at h
  | cons a u ih =>
    by_cases ha : p a
    · exact ih (by simpa [List.dropWhile_cons, ha] using h)
    · rw [List.dropWhile_cons_of_neg ha] at h
      cases h
      simpa using ha

theorem dropWhile_append_all {p : Char → Bool} {a : List Char} (y : List Char)
    (h : a.all p = true) : (a ++ y).dropWhile p = y.dropWhile p := by
  induction a with
  | nil => rfl
  | cons c u ih =>
    simp only [List.all_cons, Bool.and_eq_true] at h
    simp [List.dropWhile_cons, h.1, ih h.2]

theorem takeWhile_append_head_false {p : Char → Bool} {a : List Char} {y : List Char}
    (ha : a.all p = true) (hy : y.dropWhile p = y) :
    (a ++ y).takeWhile p = a ∧ (a ++ y).dropWhile p = y := by
  constructor
  · induction a with
    | nil =>
      cases y with
      | nil => rfl
      | cons c t =>
        have : p c = false := dropWhile_head_false hy
        simp [List.takeWhile_cons, this]
    | cons c u ih =>
      simp only [List.all_cons, Bool.and_eq_true] at ha
      simp [List.takeWhile_cons, ha.1, ih ha.2]
  · rw [dropWhile_append_all y ha, hy]

theorem mem_of_getLast?_eq_some {l : List Char} {x : Char}
    (h : l.getLast? = some x) : x ∈ l := by
  rcases List.mem_getLast?_eq_getLast (Option.mem_def.mpr h) with ⟨hne, hx⟩
  exact hx ▸ List.getLast_mem hne

theorem wsJ_isPyWs {c : Char} (h : wsJ c = true) : isPyWs c = true := by
  simp only [wsJ, Bool.or_eq_true, decide_eq_true_eq] at h
  rcases h with ((h | h) | h) | h <;> subst h <;> decide

theorem pv_start (f : Nat) (l : List Char) (v : Json) (r : List Char)
    (h : pv f l = some (v, r)) : ∃ c t, l = c :: t ∧ jStart c = true := by
  cases f with
  | zero => rw [pv.eq_1] at h; cases h
  | succ f =>
    cases l with
    | nil => rw [pv.eq_2] at h; cases h
    | cons c t =>
      refine ⟨c, t, rfl, ?_⟩
      by_contra hns
      have hns' : jStart c = false := by simpa using hns
      simp only [jStart, Bool.or_eq_false_iff, decide_eq_false_iff_not] at hns'
      obtain ⟨⟨⟨⟨⟨⟨⟨⟨⟨h1, h2⟩, h3⟩, h4⟩, h5⟩, h6⟩, h7⟩, h8⟩, h9⟩, h0⟩ := hns'
      rw [pv.eq_3] at h
      simp only [if_neg h1, if_neg h2, if_neg h3, if_neg h4, if_neg h5,
        if_neg h6, if_neg h7, if_neg h8, if_neg h9, h0] at h
      cases h

theorem jStart_not_ws {c : Char} (h : jStart c = true) :
    isPyWs c = false ∧ wsJ c = false := by
  simp only [jStart, Bool.or_eq_true, decide_eq_true_eq] at h
  have hws : isPyWs c = false := by
    rcases h with ((((((((h | h) | h) | h) | h) | h) | h) | h) | h) | h
    · subst h; decide
    · subst h; decide
    · subst h; decide
    · subst h; decide
    · subst h; decide
    · subst h; decide
    · subst h; decide
    · subst h; decide
    · subst h; decide
    · have h48 : 48 ≤ c.toNat ∧ c.toNat ≤ 57 := by
        simpa [Char.isDigit, Char.le_def] using h
      simp only [isPyWs, Bool.or_eq_false_iff, decide_eq_false_iff_not]
      refine ⟨⟨⟨⟨⟨?_, ?_⟩, ?_⟩, ?_⟩, ?_⟩, ?_⟩ <;>
        { intro hc; subst hc; exact absurd h48 (by decide) }
  refine ⟨hws, ?_⟩
  by_cases hwj : wsJ c = true
  · rw [wsJ_isPyWs hwj] at hws; cases hws
  · simpa using hwj

theorem isNumChar_not_ws {c : Char} (h : isNumChar c = true) :
    isPyWs c = false := by
  simp only [isNumChar, Bool.or_eq_true, decide_eq_true_eq] at h
  rcases h with ((((h | h) | h) | h) | h) | h
  · have h48 : 48 ≤ c.toNat ∧ c.toNat ≤ 57 := by
      simpa [Char.isDigit, Char.le_def] using h
    simp only [isPyWs, Bool.or_eq_false_iff, decide_eq_false_iff_not]
    refine ⟨⟨⟨⟨⟨?_, ?_⟩, ?_⟩, ?_⟩, ?_⟩, ?_⟩ <;>
      { intro hc; subst hc; exact absurd h48 (by decide) }
  · subst h; decide
  · subst h; decide
  · subst h; decide
  · subst h; decide
  · subst h; decide

/-- Two decompositions of one list into a part ending in a non-whitespace
character followed by all-whitespace coincide. -/
theorem split_unique {c r core b : List Char}
    (h : c ++ r = core ++ b)
    (hc : ∃ c0 d, c = c0 ++ [d] ∧ isPyWs d = false)
    (hcore : ∃ c0 d, core = c0 ++ [d] ∧ isPyWs d = false)
    (hr : r.all isPyWs = true) (hb : b.all isPyWs = true) :
    c = core ∧ r = b := by
  obtain ⟨c0, d, hcd, hd⟩ := hc
  obtain ⟨e0, e, hce, he⟩ := hcore
  rcases List.append_eq_append_iff.mp h with ⟨m, hm1, hm2⟩ | ⟨m, hm1, hm2⟩
  · cases m with
    | nil =>
      constructor
      · simpa using hm1.symm
      · simpa using hm2
    | cons x xs =>
      exfalso
      have h1 : core.getLast? = some e := by rw [hce]; simp
      have h2 : core.getLast? = (x :: xs).getLast? := by
        rw [hm1]; exact List.getLast?_append_of_ne_nil c (by simp)
      have h3 : e ∈ x :: xs := mem_of_getLast?_eq_some (h2.symm.trans h1)
      have h4 : (x :: xs).all isPyWs = true := by
        have hh := hr
        rw [hm2, List.all_append, Bool.and_eq_true] at hh
        exact hh.1
      have h5 : isPyWs e = true := by
        rw [List.all_eq_true] at h4
        simpa using h4 e h3
      rw [h5] at he
      cases he
  · cases m with
    | nil =>
      constructor
      · simpa using hm1
      · simpa using hm2.symm
    | cons x xs =>
      exfalso
      have h1 : c.getLast? = some d := by rw [hcd]; simp
      have h2 : c.getLast? = (x :: xs).getLast? := by
        rw [hm1]; exact List.getLast?_append_of_ne_nil core (by simp)
      have h3 : d ∈ x :: xs := mem_of_getLast?_eq_some (h2.symm.trans h1)
      have h4 : (x :: xs).all isPyWs = true := by
        have hh := hb
        rw [hm2, List.all_append, Bool.and_eq_true] at hh
        exact hh.1
      have h5 : isPyWs d = true := by
        rw [List.all_eq_true] at h4
        simpa using h4 d h3
      rw [h5] at hd
      cases hd


theorem pstr_ext (t : List Char) :
    ∀ s rest, pstr t = some (s, rest) →
      ∃ cs, t = cs ++ rest ∧ (∃ cs0, cs = cs0 ++ ['\"']) ∧
        ∀ r', pstr (cs ++ r') = some (s, r') := by
  induction t using pstr.induct with
  | case1 =>
    intro s rest h
    rw [pstr.eq_def] at h
    simp at h
  | case2 rest2 =>
    intro s rest h
    rw [pstr.eq_def] at h
    simp only [reduceIte, Option.some.injEq, Prod.mk.injEq] at h
    obtain ⟨hs, hr⟩ := h
    subst hr
    refine ⟨['\"'], rfl, ⟨[], rfl⟩, fun r' => ?_⟩
    rw [pstr.eq_def]
    simp [← hs]
  | case3 hq =>
    intro s rest h
    rw [pstr.eq_def] at h
    simp at h
  | case4 a b c3 d rest3 hx hq =>
    intro s rest h
    rw [pstr.eq_def] at h
    simp [hx] at h
  | case5 a b c3 d rest3 n hx s0 r0 hps hq ih =>
    intro s rest h
    rw [pstr.eq_def] at h
    simp only [if_neg hq, if_true, hx, hps, Option.some.injEq, Prod.mk.injEq] at h
    obtain ⟨hs, hr⟩ := h
    subst hr
    obtain ⟨cs, hsplit, ⟨cs0, hcs0⟩, hext⟩ := ih s0 r0 hps
    refine ⟨'\\' :: 'u' :: a :: b :: c3 :: d :: cs, by simp [hsplit],
      ⟨'\\' :: 'u' :: a :: b :: c3 :: d :: cs0, by simp [hcs0]⟩, fun r' => ?_⟩
    rw [pstr.eq_def]
    simp only [List.cons_append, if_neg hq, if_true, hx, hext r']
    simp [← hs]
  | case6 a b c3 d rest3 n hx hps hq ih =>
    intro s rest h
    rw [pstr.eq_def] at h
    simp [hx, hps] at h
  | case7 rest2 hshape hq =>
    intro s rest h
    rw [pstr.eq_def] at h
    rcases rest2 with _ | ⟨a, _ | ⟨b, _ | ⟨c3, _ | ⟨d, rest3⟩⟩⟩⟩
    · simp at h
    · simp at h
    · simp at h
    · simp at h
    · exact (hshape a b c3 d rest3 rfl).elim
  | case8 e rest2 hne d hesc s0 r0 hps hq ih =>
    intro s rest h
    rw [pstr.eq_def] at h
    simp only [if_neg hq, if_true, if_neg hne, hesc, hps, Option.some.injEq,
      Prod.mk.injEq] at h
    obtain ⟨hs, hr⟩ := h
    subst hr
    obtain ⟨cs, hsplit, ⟨cs0, hcs0⟩, hext⟩ := ih s0 r0 hps
    refine ⟨'\\' :: e :: cs, by simp [hsplit],
      ⟨'\\' :: e :: cs0, by simp [hcs0]⟩, fun r' => ?_⟩
    rw [pstr.eq_def]
    simp only [List.cons_append, if_neg hq, if_true, if_neg hne, hesc, hext r']
    simp [← hs]
  | case9 e rest2 hne d hesc hps hq ih =>
    intro s rest h
    rw [pstr.eq_def] at h
    simp [hne, hesc, hps] at h
  | case10 e rest2 hne hesc hq =>
    intro s rest h
    rw [pstr.eq_def] at h
    simp [hne, hesc] at h
  | case11 e rest2 hq hb hctl =>
    intro s rest h
    rw [pstr.eq_def] at h
    simp [hq, hb, hctl] at h
  | case12 e rest2 hq hb hctl s0 r0 hps ih =>
    intro s rest h
    rw [pstr.eq_def] at h
    simp only [if_neg hq, if_neg hb, if_neg hctl, hps, Option.some.injEq,
      Prod.mk.injEq] at h
    obtain ⟨hs, hr⟩ := h
    subst hr
    obtain ⟨cs, hsplit, ⟨cs0, hcs0⟩, hext⟩ := ih s0 r0 hps
    refine ⟨e :: cs, by simp [hsplit], ⟨e :: cs0, by simp [hcs0]⟩, fun r' => ?_⟩
    rw [pstr.eq_def]
    simp only [List.cons_append, if_neg hq, if_neg hb, if_neg hctl, hext r']
    simp [← hs]
  | case13 e rest2 hq hb hctl hps ih =>
    intro s rest h
    rw [pstr.eq_def] at h
    simp [hq, hb, hctl, hps] at h



theorem wsJ_not_num {c : Char} (h : wsJ c = true) : isNumChar c = false := by
  by_cases hn : isNumChar c = true
  · have h1 := wsJ_isPyWs h
    rw [isNumChar_not_ws hn] at h1
    cases h1
  · simpa using hn

theorem okB_nil : okB [] = true := rfl

theorem okB_ws_cons {ws : List Char} {d : Char} (y : List Char)
    (hws : ws.all wsJ = true) (hd : isNumChar d = false) :
    okB (ws ++ d :: y) = true := by
  cases ws with
  | nil => simp [okB, hd]
  | cons w ws' =>
    have hw : wsJ w = true := by
      simp only [List.all_cons, Bool.and_eq_true] at hws
      exact hws.1
    simp [okB, wsJ_not_num hw]

theorem okB_dropWhile {r : List Char} (h : okB r = true) :
    r.dropWhile isNumChar = r := by
  cases r with
  | nil => rfl
  | cons c t =>
    simp only [okB, Bool.not_eq_true'] at h
    exact List.dropWhile_cons_of_neg (by simp [h])

theorem pLit_inv {lit : List Char} {out : Json} {t : List Char} {v : Json}
    {r : List Char} (h : pLit lit out t = some (v, r)) :
    v = out ∧ t = lit ++ r := by
  unfold pLit at h
  by_cases hp : lit.isPrefixOf t = true
  · rw [if_pos hp] at h
    obtain ⟨u, hu⟩ := List.isPrefixOf_iff_prefix.mp hp
    simp only [Option.some.injEq, Prod.mk.injEq] at h
    obtain ⟨hv, hr⟩ := h
    subst hu hv
    constructor
    · rfl
    · rw [← hr, List.drop_left]
  · rw [if_neg hp] at h
    cases h

theorem pLit_ext (lit : List Char) (out : Json) (r' : List Char) :
    pLit lit out (lit ++ r') = some (out, r') := by
  unfold pLit
  rw [if_pos (List.isPrefixOf_iff_prefix.mpr ⟨r', rfl⟩), List.drop_left]

theorem ends_nonws_of_all_num {tok : List Char} (hne : tok ≠ [])
    (hall : tok.all isNumChar = true) :
    ∃ c0 d, tok = c0 ++ [d] ∧ isPyWs d = false := by
  rcases List.eq_nil_or_concat tok with h | ⟨c0, d, hcd⟩
  · exact absurd h hne
  · rw [List.concat_eq_append] at hcd
    refine ⟨c0, d, hcd, ?_⟩
    have hd : isNumChar d = true := by
      rw [List.all_eq_true] at hall
      simpa using hall d (by simp [hcd])
    exact isNumChar_not_ws hd





theorem pv_succ_lbrace (g : Nat) (u : List Char) :
    pv (g+1) (lbrace :: u) =
      (match u.dropWhile wsJ with
       | d :: t2 => if d = rbrace then some (Json.jobj [], t2) else pmems g (d :: t2) []
       | [] => none) := rfl

theorem pv_succ_lbrack (g : Nat) (u : List Char) :
    pv (g+1) ('[' :: u) =
      (match u.dropWhile wsJ with
       | d :: t2 => if d = ']' then some (Json.jarr [], t2) else pelems g (d :: t2) []
       | [] => none) := rfl

theorem pv_succ_quote (g : Nat) (u : List Char) :
    pv (g+1) ('\"' :: u) =
      (match pstr u with
       | some (s, r1) => some (Json.jstr s, r1)
       | none => none) := rfl

theorem pv_succ_minus (g : Nat) (u : List Char) :
    pv (g+1) ('-' :: u) =
      (if ['I', 'n', 'f', 'i', 'n', 'i', 't', 'y'].isPrefixOf u then
        some (Json.jnum ['-', 'I', 'n', 'f', 'i', 'n', 'i', 't', 'y'], u.drop 8)
      else
        let sp := ('-' :: u).span isNumChar
        if numOk sp.1 then some (Json.jnum sp.1, sp.2) else none) := rfl

theorem span_rebuild {tok : List Char} (r' : List Char)
    (hall : tok.all isNumChar = true) (hok : okB r' = true) :
    (tok ++ r').span isNumChar = (tok, r') := by
  rw [List.span_eq_take_drop]
  obtain ⟨h1, h2⟩ := takeWhile_append_head_false hall (okB_dropWhile hok)
  rw [h1, h2]

theorem takeWhile_all {p : Char → Bool} (l : List Char) :
    (l.takeWhile p).all p = true := by
  rw [List.all_eq_true]
  exact fun x hx => by simpa using List.mem_takeWhile_imp hx

theorem step_str (t : List Char) (v : Json) (r : List Char)
    (h : (match pstr t with
          | some (s, r1) => some (Json.jstr s, r1)
          | none => none) = some (v, r)) :
    SplitV ('\"' :: t) v r := by
  cases hps : pstr t with
  | none => rw [hps] at h; cases h
  | some p =>
    obtain ⟨s0, r0⟩ := p
    rw [hps] at h
    simp only [Option.some.injEq, Prod.mk.injEq] at h
    obtain ⟨hv, hr⟩ := h
    subst hv hr
    obtain ⟨cs, hsplit, ⟨cs0, hcs0⟩, hext⟩ := pstr_ext t s0 r0 hps
    refine ⟨'\"' :: cs, by simp [hsplit],
      ⟨'\"' :: cs0, '\"', by simp [hcs0], by decide⟩, fun r' g hok hg => ?_⟩
    cases g with
    | zero => exact absurd hg (by omega)
    | succ g' =>
      have hre : ('\"' :: cs) ++ r' = '\"' :: (cs ++ r') := by simp
      rw [hre, pv_succ_quote, hext r']

theorem step_lit (c : Char) (lit : List Char) (out : Json) (t : List Char)
    (v : Json) (r : List Char)
    (hred : ∀ (g : Nat) (u : List Char), pv (g+1) (c :: u) = pLit lit out u)
    (hend : ∃ c0 d, c :: lit = c0 ++ [d] ∧ isPyWs d = false)
    (h : pLit lit out t = some (v, r)) :
    SplitV (c :: t) v r := by
  obtain ⟨hv, ht⟩ := pLit_inv h
  subst hv
  refine ⟨c :: lit, by simp [ht], hend, fun r' g hok hg => ?_⟩
  cases g with
  | zero => exact absurd hg (by omega)
  | succ g' =>
    have hre : (c :: lit) ++ r' = c :: (lit ++ r') := by simp
    rw [hre, hred g', pLit_ext]



theorem step_obj (f : Nat) (ihm : PmP f) (t : List Char) (v : Json)
    (r : List Char)
    (h : (match t.dropWhile wsJ with
          | d :: t2 => if d = rbrace then some (Json.jobj [], t2)
                       else pmems f (d :: t2) []
          | [] => none) = some (v, r)) :
    SplitV (lbrace :: t) v r := by
  cases hdw : t.dropWhile wsJ with
  | nil => rw [hdw] at h; cases h
  | cons d t2 =>
    rw [hdw] at h
    have hws1 : (t.takeWhile wsJ).all wsJ = true := takeWhile_all t
    have ht : t = t.takeWhile wsJ ++ (d :: t2) := by
      conv_lhs => rw [← List.takeWhile_append_dropWhile (p := wsJ) (l := t)]
      rw [hdw]
    have hdnw : wsJ d = false := dropWhile_head_false hdw
    have h2 : (if d = rbrace then some (Json.jobj [], t2)
        else pmems f (d :: t2) []) = some (v, r) := h
    by_cases hd : d = rbrace
    · rw [if_pos hd] at h2
      simp only [Option.some.injEq, Prod.mk.injEq] at h2
      obtain ⟨hv, hr⟩ := h2
      subst hv hr hd
      have hsp1 : lbrace :: t = (lbrace :: (t.takeWhile wsJ ++ [rbrace])) ++ t2 := by
        conv_lhs => rw [ht]
        simp
      refine ⟨lbrace :: (t.takeWhile wsJ ++ [rbrace]),
        hsp1,
        ⟨lbrace :: t.takeWhile wsJ, rbrace, by simp, by decide⟩,
        fun r' g hok hg => ?_⟩
      cases g with
      | zero => exact absurd hg (by omega)
      | succ g' =>
        have hre : (lbrace :: (t.takeWhile wsJ ++ [rbrace])) ++ r' =
            lbrace :: (t.takeWhile wsJ ++ rbrace :: r') := by simp
        rw [hre, pv_succ_lbrace]
        have hdw2 : (t.takeWhile wsJ ++ rbrace :: r').dropWhile wsJ =
            rbrace :: r' := by
          rw [dropWhile_append_all _ hws1,
            List.dropWhile_cons_of_neg (by decide)]
        rw [hdw2]
        simp
    · rw [if_neg hd] at h2
      obtain ⟨cm, hsplitm, ⟨cm0, hcm0⟩, hextm⟩ := ihm (d :: t2) [] v r h2
      obtain ⟨cm'', hcm''⟩ : ∃ cm'', cm = d :: cm'' := by
        cases cm with
        | nil => simp at hcm0
        | cons x cm'' =>
          have hx : x = d := by
            have := hsplitm
            simp only [List.cons_append, List.cons.injEq] at this
            exact this.1.symm
          exact ⟨cm'', by rw [hx]⟩
      have hsp1 : lbrace :: t = (lbrace :: (t.takeWhile wsJ ++ cm)) ++ r := by
        conv_lhs => rw [ht, hsplitm]
        simp
      refine ⟨lbrace :: (t.takeWhile wsJ ++ cm),
        hsp1,
        ⟨lbrace :: (t.takeWhile wsJ ++ cm0), rbrace, by simp [hcm0], by decide⟩,
        fun r' g hok hg => ?_⟩
      cases g with
      | zero => exact absurd hg (by omega)
      | succ g' =>
        have hre : (lbrace :: (t.takeWhile wsJ ++ cm)) ++ r' =
            lbrace :: (t.takeWhile wsJ ++ (cm ++ r')) := by simp
        rw [hre, pv_succ_lbrace]
        have hdw2 : (t.takeWhile wsJ ++ (cm ++ r')).dropWhile wsJ = cm ++ r' := by
          rw [dropWhile_append_all _ hws1, hcm'']
          exact List.dropWhile_cons_of_neg (by simp [hdnw])
        rw [hdw2, hcm'']
        have hg' : cm.length + 1 ≤ g' := by
          simp only [List.length_cons, List.length_append] at hg
          omega
        have hres := hextm r' g' hg'
        rw [hcm''] at hres
        simp only [List.cons_append] at hres ⊢
        rw [if_neg hd]
        exact hres

theorem step_arr (f : Nat) (ihe : PeP f) (t : List Char) (v : Json)
    (r : List Char)
    (h : (match t.dropWhile wsJ with
          | d :: t2 => if d = ']' then some (Json.jarr [], t2)
                       else pelems f (d :: t2) []
          | [] => none) = some (v, r)) :
    SplitV ('[' :: t) v r := by
  cases hdw : t.dropWhile wsJ with
  | nil => rw [hdw] at h; cases h
  | cons d t2 =>
    rw [hdw] at h
    have hws1 : (t.takeWhile wsJ).all wsJ = true := takeWhile_all t
    have ht : t = t.takeWhile wsJ ++ (d :: t2) := by
      conv_lhs => rw [← List.takeWhile_append_dropWhile (p := wsJ) (l := t)]
      rw [hdw]
    have hdnw : wsJ d = false := dropWhile_head_false hdw
    have h2 : (if d = ']' then some (Json.jarr [], t2)
        else pelems f (d :: t2) []) = some (v, r) := h
    by_cases hd : d = ']'
    · rw [if_pos hd] at h2
      simp only [Option.some.injEq, Prod.mk.injEq] at h2
      obtain ⟨hv, hr⟩ := h2
      subst hv hr hd
      have hsp1 : '[' :: t = ('[' :: (t.takeWhile wsJ ++ [']'])) ++ t2 := by
        conv_lhs => rw [ht]
        simp
      refine ⟨'[' :: (t.takeWhile wsJ ++ [']']),
        hsp1,
        ⟨'[' :: t.takeWhile wsJ, ']', by simp, by decide⟩,
        fun r' g hok hg => ?_⟩
      cases g with
      | zero => exact absurd hg (by omega)
      | succ g' =>
        have hre : ('[' :: (t.takeWhile wsJ ++ [']'])) ++ r' =
            '[' :: (t.takeWhile wsJ ++ ']' :: r') := by simp
        rw [hre, pv_succ_lbrack]
        have hdw2 : (t.takeWhile wsJ ++ ']' :: r').dropWhile wsJ =
            ']' :: r' := by
          rw [dropWhile_append_all _ hws1,
            List.dropWhile_cons_of_neg (by decide)]
        rw [hdw2]
        simp
    · rw [if_neg hd] at h2
      obtain ⟨cm, hsplitm, ⟨cm0, hcm0⟩, hextm⟩ := ihe (d :: t2) [] v r h2
      obtain ⟨cm'', hcm''⟩ : ∃ cm'', cm = d :: cm'' := by
        cases cm with
        | nil => simp at hcm0
        | cons x cm'' =>
          have hx : x = d := by
            have := hsplitm
            simp only [List.cons_append, List.cons.injEq] at this
            exact this.1.symm
          exact ⟨cm'', by rw [hx]⟩
      have hsp1 : '[' :: t = ('[' :: (t.takeWhile wsJ ++ cm)) ++ r := by
        conv_lhs => rw [ht, hsplitm]
        simp
      refine ⟨'[' :: (t.takeWhile wsJ ++ cm),
        hsp1,
        ⟨'[' :: (t.takeWhile wsJ ++ cm0), ']', by simp [hcm0], by decide⟩,
        fun r' g hok hg => ?_⟩
      cases g with
      | zero => exact absurd hg (by omega)
      | succ g' =>
        have hre : ('[' :: (t.takeWhile wsJ ++ cm)) ++ r' =
            '[' :: (t.takeWhile wsJ ++ (cm ++ r')) := by simp
        rw [hre, pv_succ_lbrack]
        have hdw2 : (t.takeWhile wsJ ++ (cm ++ r')).dropWhile wsJ = cm ++ r' := by
          rw [dropWhile_append_all _ hws1, hcm'']
          exact List.dropWhile_cons_of_neg (by simp [hdnw])
        rw [hdw2, hcm'']
        have hg' : cm.length + 1 ≤ g' := by
          simp only [List.length_cons, List.length_append] at hg
          omega
        have hres := hextm r' g' hg'
        rw [hcm''] at hres
        simp only [List.cons_append] at hres ⊢
        rw [if_neg hd]
        exact hres



theorem step_digit (c : Char) (t : List Char) (v : Json) (r : List Char)
    (hcn : isNumChar c = true)
    (hred : ∀ (g : Nat) (u : List Char), pv (g+1) (c :: u) =
      (let sp := (c :: u).span isNumChar
       if numOk sp.1 then some (Json.jnum sp.1, sp.2) else none))
    (h : (let sp := (c :: t).span isNumChar
          if numOk sp.1 then some (Json.jnum sp.1, sp.2) else none) = some (v, r)) :
    SplitV (c :: t) v r := by
  have h' : (if numOk ((c :: t).takeWhile isNumChar) then
      some (Json.jnum ((c :: t).takeWhile isNumChar), (c :: t).dropWhile isNumChar)
      else none) = some (v, r) := by
    simpa [List.span_eq_take_drop] using h
  by_cases hok : numOk ((c :: t).takeWhile isNumChar) = true
  · rw [if_pos hok] at h'
    simp only [Option.some.injEq, Prod.mk.injEq] at h'
    obtain ⟨hv, hr⟩ := h'
    subst hv hr
    have htokc : (c :: t).takeWhile isNumChar = c :: t.takeWhile isNumChar :=
      List.takeWhile_cons_of_pos (by simp [hcn])
    have htokall : ((c :: t).takeWhile isNumChar).all isNumChar = true :=
      takeWhile_all (c :: t)
    have hsplit : c :: t =
        (c :: t).takeWhile isNumChar ++ (c :: t).dropWhile isNumChar :=
      (List.takeWhile_append_dropWhile isNumChar (c :: t)).symm
    refine ⟨(c :: t).takeWhile isNumChar, hsplit,
      ends_nonws_of_all_num (by rw [htokc]; simp) htokall,
      fun r' g hok' hg => ?_⟩
    cases g with
    | zero => exact absurd hg (by omega)
    | succ g' =>
      have hre : (c :: t).takeWhile isNumChar ++ r' =
          c :: (t.takeWhile isNumChar ++ r') := by rw [htokc]; simp
      rw [hre, hred g']
      have hre2 : c :: (t.takeWhile isNumChar ++ r') =
          (c :: t).takeWhile isNumChar ++ r' := hre.symm
      simp only [hre2, span_rebuild r' htokall hok']
      rw [if_pos hok]
  · rw [if_neg hok] at h'
    cases h'

theorem step_minus (t : List Char) (v : Json) (r : List Char)
    (h : (if ['I', 'n', 'f', 'i', 'n', 'i', 't', 'y'].isPrefixOf t then
            some (Json.jnum ['-', 'I', 'n', 'f', 'i', 'n', 'i', 't', 'y'], t.drop 8)
          else
            let sp := ('-' :: t).span isNumChar
            if numOk sp.1 then some (Json.jnum sp.1, sp.2) else none) = some (v, r)) :
    SplitV ('-' :: t) v r := by
  by_cases hInf : ['I', 'n', 'f', 'i', 'n', 'i', 't', 'y'].isPrefixOf t = true
  · rw [if_pos hInf] at h
    simp only [Option.some.injEq, Prod.mk.injEq] at h
    obtain ⟨hv, hr⟩ := h
    obtain ⟨u, hu⟩ := List.isPrefixOf_iff_prefix.mp hInf
    have hdrop : t.drop 8 = u := by
      rw [← hu]
      exact List.drop_left ['I', 'n', 'f', 'i', 'n', 'i', 't', 'y'] u
    subst hv
    refine ⟨'-' :: ['I', 'n', 'f', 'i', 'n', 'i', 't', 'y'],
      by rw [← hu, ← hr, hdrop]; rfl,
      ⟨['-', 'I', 'n', 'f', 'i', 'n', 'i', 't'], 'y', rfl, by decide⟩,
      fun r' g hok' hg => ?_⟩
    cases g with
    | zero => exact absurd hg (by omega)
    | succ g' =>
      have hre : ('-' :: ['I', 'n', 'f', 'i', 'n', 'i', 't', 'y']) ++ r' =
          '-' :: (['I', 'n', 'f', 'i', 'n', 'i', 't', 'y'] ++ r') := by simp
      rw [hre, pv_succ_minus, if_pos (List.isPrefixOf_iff_prefix.mpr ⟨r', rfl⟩)]
      rfl
  · rw [if_neg hInf] at h
    have h' : (if numOk (('-' :: t).takeWhile isNumChar) then
        some (Json.jnum (('-' :: t).takeWhile isNumChar),
          ('-' :: t).dropWhile isNumChar)
        else none) = some (v, r) := by
      simpa [List.span_eq_take_drop] using h
    by_cases hok : numOk (('-' :: t).takeWhile isNumChar) = true
    · rw [if_pos hok] at h'
      simp only [Option.some.injEq, Prod.mk.injEq] at h'
      obtain ⟨hv, hr⟩ := h'
      subst hv hr
      have htokc : ('-' :: t).takeWhile isNumChar = '-' :: t.takeWhile isNumChar :=
        List.takeWhile_cons_of_pos (by decide)
      have htokall : (('-' :: t).takeWhile isNumChar).all isNumChar = true :=
        takeWhile_all ('-' :: t)
      have hsplit : '-' :: t =
          ('-' :: t).takeWhile isNumChar ++ ('-' :: t).dropWhile isNumChar :=
        (List.takeWhile_append_dropWhile isNumChar ('-' :: t)).symm
      obtain ⟨x, tk2, hxk⟩ : ∃ x tk2, t.takeWhile isNumChar = x :: tk2 := by
        cases hk : t.takeWhile isNumChar with
        | nil =>
          rw [htokc, hk] at hok
          exact absurd hok (by decide)
        | cons x tk2 => exact ⟨x, tk2, rfl⟩
      have hxnum : isNumChar x = true := by
        have := takeWhile_all (p := isNumChar) t
        rw [hxk, List.all_cons, Bool.and_eq_true] at this
        exact this.1
      have hxI : ¬ x = 'I' := by
        intro hx
        rw [hx] at hxnum
        exact absurd hxnum (by decide)
      refine ⟨('-' :: t).takeWhile isNumChar, hsplit,
        ends_nonws_of_all_num (by rw [htokc]; simp) htokall,
        fun r' g hok' hg => ?_⟩
      cases g with
      | zero => exact absurd hg (by omega)
      | succ g' =>
        have hre : ('-' :: t).takeWhile isNumChar ++ r' =
            '-' :: (t.takeWhile isNumChar ++ r') := by rw [htokc]; simp
        rw [hre, pv_succ_minus]
        have hInf2 : ¬ (['I', 'n', 'f', 'i', 'n', 'i', 't', 'y'].isPrefixOf
            (t.takeWhile isNumChar ++ r')) = true := by
          rw [hxk]
          intro hcontra
          obtain ⟨u2, hu2⟩ := List.isPrefixOf_iff_prefix.mp hcontra
          simp only [List.cons_append, List.cons.injEq] at hu2
          exact hxI hu2.1.symm
        rw [if_neg hInf2]
        have hre2 : '-' :: (t.takeWhile isNumChar ++ r') =
            ('-' :: t).takeWhile isNumChar ++ r' := hre.symm
        simp only [hre2, span_rebuild r' htokall hok']
        rw [if_pos hok]
    · rw [if_neg hok] at h'
      cases h'



theorem step_pelems (f : Nat) (ihv : PvP f) (ihe : PeP f) (l : List Char)
    (acc : List Json) (v : Json) (r : List Char)
    (h : pelems (f+1) l acc = some (v, r)) : SplitE l acc v r := by
  rw [pelems.eq_2] at h
  cases hpv : pv f l with
  | none => simp [hpv] at h
  | some p =>
    obtain ⟨v1, r1⟩ := p
    simp only [hpv] at h
    obtain ⟨c1, hsp1, ⟨c10, d1, hc10, hd1⟩, ext1⟩ := ihv l v1 r1 hpv
    cases hdw : r1.dropWhile wsJ with
    | nil => simp [hdw] at h
    | cons dd r2 =>
      simp only [hdw] at h
      set tw1 := r1.takeWhile wsJ with htw1
      have hws1 : tw1.all wsJ = true := takeWhile_all r1
      have hr1 : r1 = tw1 ++ (dd :: r2) := by
        conv_lhs => rw [← List.takeWhile_append_dropWhile (p := wsJ) (l := r1)]
        rw [hdw]
      have hddnw : wsJ dd = false := dropWhile_head_false hdw
      by_cases hdd : dd = ','
      · subst hdd
        rw [if_pos rfl] at h
        obtain ⟨ce, hspE, ⟨ce0, hce0⟩, extE⟩ :=
          ihe (r2.dropWhile wsJ) (v1 :: acc) v r h
        set tw2 := r2.takeWhile wsJ with htw2
        have hws2 : tw2.all wsJ = true := takeWhile_all r2
        have hr2 : r2 = tw2 ++ (ce ++ r) := by
          conv_lhs => rw [← List.takeWhile_append_dropWhile (p := wsJ) (l := r2)]
          rw [hspE]
        obtain ⟨e1, ce'', hce''⟩ : ∃ e1 ce'', ce = e1 :: ce'' := by
          cases ce with
          | nil => simp at hce0
          | cons e1 ce'' => exact ⟨e1, ce'', rfl⟩
        have he1 : wsJ e1 = false := by
          refine dropWhile_head_false (l := r2) (t := ce'' ++ r) ?_
          rw [hspE, hce'']
          simp
        have hsplitEq : l = (c1 ++ (tw1 ++ (',' :: (tw2 ++ ce)))) ++ r := by
          rw [hsp1, hr1, hr2]
          simp [List.append_assoc]
        refine ⟨c1 ++ (tw1 ++ (',' :: (tw2 ++ ce))), hsplitEq,
          ⟨c1 ++ (tw1 ++ (',' :: (tw2 ++ ce0))), by rw [hce0]; simp⟩,
          fun r' g hg => ?_⟩
        cases g with
        | zero => exact absurd hg (by omega)
        | succ g' =>
          have hA : (c1 ++ (tw1 ++ (',' :: (tw2 ++ ce)))) ++ r' =
              c1 ++ (tw1 ++ (',' :: (tw2 ++ (ce ++ r')))) := by
            simp [List.append_assoc]
          rw [hA, pelems.eq_2]
          have hokA : okB (tw1 ++ (',' :: (tw2 ++ (ce ++ r')))) = true :=
            okB_ws_cons _ hws1 (by decide)
          have hfuel1 : c1.length + 1 ≤ g' := by
            simp only [List.length_append, List.length_cons] at hg
            omega
          simp only [ext1 _ g' hokA hfuel1]
          have hB : (tw1 ++ (',' :: (tw2 ++ (ce ++ r')))).dropWhile wsJ =
              ',' :: (tw2 ++ (ce ++ r')) := by
            rw [dropWhile_append_all _ hws1]
            exact List.dropWhile_cons_of_neg (by decide)
          simp only [hB, reduceIte]
          have hC : (tw2 ++ (ce ++ r')).dropWhile wsJ = ce ++ r' := by
            rw [dropWhile_append_all _ hws2, hce'', List.cons_append,
              List.dropWhile_cons_of_neg (by simp [he1]), ← List.cons_append,
              ← hce'']
          rw [hC]
          refine extE r' g' ?_
          simp only [List.length_append, List.length_cons] at hg ⊢
          omega
      · rw [if_neg hdd] at h
        by_cases hdb : dd = ']'
        · subst hdb
          rw [if_pos rfl] at h
          simp only [Option.some.injEq, Prod.mk.injEq] at h
          obtain ⟨hv, hr⟩ := h
          subst hv hr
          have hsplitEq : l = (c1 ++ (tw1 ++ [']'])) ++ r2 := by
            rw [hsp1, hr1]
            simp [List.append_assoc]
          refine ⟨c1 ++ (tw1 ++ [']']), hsplitEq,
            ⟨c1 ++ tw1, by simp⟩, fun r' g hg => ?_⟩
          cases g with
          | zero => exact absurd hg (by omega)
          | succ g' =>
            have hA : (c1 ++ (tw1 ++ [']'])) ++ r' =
                c1 ++ (tw1 ++ (']' :: r')) := by simp [List.append_assoc]
            rw [hA, pelems.eq_2]
            have hokA : okB (tw1 ++ (']' :: r')) = true :=
              okB_ws_cons _ hws1 (by decide)
            have hfuel1 : c1.length + 1 ≤ g' := by
              simp only [List.length_append, List.length_cons] at hg
              omega
            simp only [ext1 _ g' hokA hfuel1]
            have hB : (tw1 ++ (']' :: r')).dropWhile wsJ = ']' :: r' := by
              rw [dropWhile_append_all _ hws1]
              exact List.dropWhile_cons_of_neg (by decide)
            simp [hB]
        · rw [if_neg hdb] at h
          cases h



theorem pmems_succ_cons (g : Nat) (c : Char) (t : List Char)
    (acc : List (List Char × Json)) :
    pmems (g+1) (c :: t) acc =
      (if c = '\"' then
        match pstr t with
        | none => none
        | some (k, r) =>
          match r.dropWhile wsJ with
          | d :: r2 =>
            if d = ':' then
              match pv g (r2.dropWhile wsJ) with
              | none => none
              | some (v, r4) =>
                match r4.dropWhile wsJ with
                | e :: r6 =>
                  if e = ',' then pmems g (r6.dropWhile wsJ) ((k, v) :: acc)
                  else if e = rbrace then
                    some (.jobj ((k, v) :: acc).reverse, r6)
                  else none
                | [] => none
            else none
          | [] => none
      else none) := rfl

theorem step_pmems (f : Nat) (ihv : PvP f) (ihm : PmP f) (l : List Char)
    (acc : List (List Char × Json)) (v : Json) (r : List Char)
    (h : pmems (f+1) l acc = some (v, r)) : SplitM l acc v r := by
  cases l with
  | nil => rw [pmems.eq_2] at h; simp at h
  | cons c t =>
    rw [pmems_succ_cons] at h
    by_cases hc : c = '\"'
    case neg => rw [if_neg hc] at h; cases h
    case pos =>
    subst hc
    rw [if_pos rfl] at h
    cases hps : pstr t with
    | none => simp [hps] at h
    | some p =>
      obtain ⟨k, r0⟩ := p
      simp only [hps] at h
      obtain ⟨cs, hspS, ⟨cs0, hcs0⟩, extS⟩ := pstr_ext t k r0 hps
      cases hdw0 : r0.dropWhile wsJ with
      | nil => simp [hdw0] at h
      | cons d r2 =>
        simp only [hdw0] at h
        set tw0 := r0.takeWhile wsJ with htw0
        have hws0 : tw0.all wsJ = true := takeWhile_all r0
        have hr0 : r0 = tw0 ++ (d :: r2) := by
          conv_lhs => rw [← List.takeWhile_append_dropWhile (p := wsJ) (l := r0)]
          rw [hdw0]
        by_cases hd : d = ':'
        case neg => rw [if_neg hd] at h; cases h
        case pos =>
        subst hd
        rw [if_pos rfl] at h
        cases hpv : pv f (r2.dropWhile wsJ) with
        | none => simp [hpv] at h
        | some p2 =>
          obtain ⟨v1, r4⟩ := p2
          simp only [hpv] at h
          obtain ⟨cv, hspV, ⟨cv0, dv, hcv0, hdv⟩, extV⟩ := ihv _ v1 r4 hpv
          set tw2 := r2.takeWhile wsJ with htw2
          have hws2 : tw2.all wsJ = true := takeWhile_all r2
          have hr2 : r2 = tw2 ++ (cv ++ r4) := by
            conv_lhs => rw [← List.takeWhile_append_dropWhile (p := wsJ) (l := r2)]
            rw [hspV]
          obtain ⟨e1, cv'', hcv''⟩ : ∃ e1 cv'', cv = e1 :: cv'' := by
            cases cv with
            | nil => simp at hcv0
            | cons a b => exact ⟨a, b, rfl⟩
          have he1 : wsJ e1 = false := by
            refine dropWhile_head_false (l := r2) (t := cv'' ++ r4) ?_
            rw [hspV, hcv'']
            simp
          cases hdw4 : r4.dropWhile wsJ with
          | nil => simp [hdw4] at h
          | cons e r6 =>
            simp only [hdw4] at h
            set tw4 := r4.takeWhile wsJ with htw4
            have hws4 : tw4.all wsJ = true := takeWhile_all r4
            have hr4 : r4 = tw4 ++ (e :: r6) := by
              conv_lhs => rw [← List.takeWhile_append_dropWhile (p := wsJ) (l := r4)]
              rw [hdw4]
            by_cases he : e = ','
            · subst he
              rw [if_pos rfl] at h
              obtain ⟨cm, hspM, ⟨cm0, hcm0⟩, extM⟩ := ihm _ ((k, v1) :: acc) v r h
              set tw6 := r6.takeWhile wsJ with htw6
              have hws6 : tw6.all wsJ = true := takeWhile_all r6
              have hr6 : r6 = tw6 ++ (cm ++ r) := by
                conv_lhs => rw [← List.takeWhile_append_dropWhile (p := wsJ) (l := r6)]
                rw [hspM]
              obtain ⟨m1, cm'', hcm''⟩ : ∃ m1 cm'', cm = m1 :: cm'' := by
                cases cm with
                | nil => simp at hcm0
                | cons a b => exact ⟨a, b, rfl⟩
              have hm1 : wsJ m1 = false := by
                refine dropWhile_head_false (l := r6) (t := cm'' ++ r) ?_
                rw [hspM, hcm'']
                simp
              refine ⟨'\"' :: (cs ++ (tw0 ++ (':' :: (tw2 ++ (cv ++ (tw4 ++ (',' :: (tw6 ++ cm)))))))), ?_, ?_, fun r' g hg => ?_⟩
              · rw [hspS, hr0, hr2, hr4, hr6]
                simp [List.append_assoc]
              · exact ⟨'\"' :: (cs ++ (tw0 ++ (':' :: (tw2 ++ (cv ++ (tw4 ++ (',' :: (tw6 ++ cm0)))))))), by rw [hcm0]; simp⟩
              · cases g with
                | zero => exact absurd hg (by omega)
                | succ g' =>
                  have hA : ('\"' :: (cs ++ (tw0 ++ (':' :: (tw2 ++ (cv ++ (tw4 ++ (',' :: (tw6 ++ cm))))))))) ++ r' =
                      '\"' :: (cs ++ (tw0 ++ (':' :: (tw2 ++ (cv ++ (tw4 ++ (',' :: (tw6 ++ (cm ++ r'))))))))) := by
                    simp [List.append_assoc]
                  rw [hA, pmems_succ_cons, if_pos rfl]
                  simp only [extS]
                  have hB : (tw0 ++ (':' :: (tw2 ++ (cv ++ (tw4 ++ (',' :: (tw6 ++ (cm ++ r')))))))).dropWhile wsJ =
                      ':' :: (tw2 ++ (cv ++ (tw4 ++ (',' :: (tw6 ++ (cm ++ r')))))) := by
                    rw [dropWhile_append_all _ hws0]
                    exact List.dropWhile_cons_of_neg (by decide)
                  simp only [hB, reduceIte]
                  have hC : (tw2 ++ (cv ++ (tw4 ++ (',' :: (tw6 ++ (cm ++ r')))))).dropWhile wsJ =
                      cv ++ (tw4 ++ (',' :: (tw6 ++ (cm ++ r')))) := by
                    rw [dropWhile_append_all _ hws2, hcv'', List.cons_append,
                      List.dropWhile_cons_of_neg (by simp [he1]), ← List.cons_append,
                      ← hcv'']
                  rw [hC]
                  have hokZ : okB (tw4 ++ (',' :: (tw6 ++ (cm ++ r')))) = true :=
                    okB_ws_cons _ hws4 (by decide)
                  have hfv : cv.length + 1 ≤ g' := by
                    simp only [List.length_cons, List.length_append] at hg
                    omega
                  simp only [extV _ g' hokZ hfv]
                  have hD : (tw4 ++ (',' :: (tw6 ++ (cm ++ r')))).dropWhile wsJ =
                      ',' :: (tw6 ++ (cm ++ r')) := by
                    rw [dropWhile_append_all _ hws4]
                    exact List.dropWhile_cons_of_neg (by decide)
                  simp only [hD, reduceIte]
                  have hE : (tw6 ++ (cm ++ r')).dropWhile wsJ = cm ++ r' := by
                    rw [dropWhile_append_all _ hws6, hcm'', List.cons_append,
                      List.dropWhile_cons_of_neg (by simp [hm1]), ← List.cons_append,
                      ← hcm'']
                  rw [hE]
                  refine extM r' g' ?_
                  simp only [List.length_cons, List.length_append] at hg ⊢
                  omega
            · rw [if_neg he] at h
              by_cases heb : e = rbrace
              · subst heb
                rw [if_pos rfl] at h
                simp only [Option.some.injEq, Prod.mk.injEq] at h
                obtain ⟨hv, hr⟩ := h
                subst hv hr
                refine ⟨'\"' :: (cs ++ (tw0 ++ (':' :: (tw2 ++ (cv ++ (tw4 ++ [rbrace])))))), ?_, ?_, fun r' g hg => ?_⟩
                · rw [hspS, hr0, hr2, hr4]
                  simp [List.append_assoc]
                · exact ⟨'\"' :: (cs ++ (tw0 ++ (':' :: (tw2 ++ (cv ++ tw4))))), by simp⟩
                · cases g with
                  | zero => exact absurd hg (by omega)
                  | succ g' =>
                    have hA : ('\"' :: (cs ++ (tw0 ++ (':' :: (tw2 ++ (cv ++ (tw4 ++ [rbrace]))))))) ++ r' =
                        '\"' :: (cs ++ (tw0 ++ (':' :: (tw2 ++ (cv ++ (tw4 ++ (rbrace :: r'))))))) := by
                      simp [List.append_assoc]
                    rw [hA, pmems_succ_cons, if_pos rfl]
                    simp only [extS]
                    have hB : (tw0 ++ (':' :: (tw2 ++ (cv ++ (tw4 ++ (rbrace :: r')))))).dropWhile wsJ =
                        ':' :: (tw2 ++ (cv ++ (tw4 ++ (rbrace :: r')))) := by
                      rw [dropWhile_append_all _ hws0]
                      exact List.dropWhile_cons_of_neg (by decide)
                    simp only [hB, reduceIte]
                    have hC : (tw2 ++ (cv ++ (tw4 ++ (rbrace :: r')))).dropWhile wsJ =
                        cv ++ (tw4 ++ (rbrace :: r')) := by
                      rw [dropWhile_append_all _ hws2, hcv'', List.cons_append,
                        List.dropWhile_cons_of_neg (by simp [he1]), ← List.cons_append,
                        ← hcv'']
                    rw [hC]
                    have hokZ : okB (tw4 ++ (rbrace :: r')) = true :=
                      okB_ws_cons _ hws4 (by decide)
                    have hfv : cv.length + 1 ≤ g' := by
                      simp only [List.length_cons, List.length_append] at hg
                      omega
                    simp only [extV _ g' hokZ hfv]
                    have hD : (tw4 ++ (rbrace :: r')).dropWhile wsJ = rbrace :: r' := by
                      rw [dropWhile_append_all _ hws4]
                      exact List.dropWhile_cons_of_neg (by decide)
                    simp only [hD]
                    rw [if_neg he]
                    rfl
              · rw [if_neg heb] at h
                cases h



theorem parse_split_ext : ∀ f, PvP f ∧ PeP f ∧ PmP f := by
  intro f
  induction f with
  | zero =>
    refine ⟨fun l v r h => ?_, fun l acc v r h => ?_, fun l acc v r h => ?_⟩
    · rw [pv.eq_1] at h
      cases h
    · rw [pelems.eq_1] at h
      cases h
    · rw [pmems.eq_1] at h
      cases h
  | succ f ih =>
    obtain ⟨ihv, ihe, ihm⟩ := ih
    refine ⟨fun l v r h => ?_,
      fun l acc v r h => step_pelems f ihv ihe l acc v r h,
      fun l acc v r h => step_pmems f ihv ihm l acc v r h⟩
    cases l with
    | nil =>
      rw [pv.eq_2] at h
      cases h
    | cons c t =>
      rw [pv.eq_3] at h
      by_cases h1 : c = lbrace
      · subst h1
        rw [if_pos rfl] at h
        exact step_obj f ihm t v r h
      rw [if_neg h1] at h
      by_cases h2 : c = '['
      · subst h2
        rw [if_pos rfl] at h
        exact step_arr f ihe t v r h
      rw [if_neg h2] at h
      by_cases h3 : c = '\"'
      · subst h3
        rw [if_pos rfl] at h
        exact step_str t v r h
      rw [if_neg h3] at h
      by_cases h4 : c = 't'
      · subst h4
        rw [if_pos rfl] at h
        exact step_lit 't' ['r', 'u', 'e'] (.jbool true) t v r
          (fun g u => rfl) ⟨['t', 'r', 'u'], 'e', rfl, by decide⟩ h
      rw [if_neg h4] at h
      by_cases h5 : c = 'f'
      · subst h5
        rw [if_pos rfl] at h
        exact step_lit 'f' ['a', 'l', 's', 'e'] (.jbool false) t v r
          (fun g u => rfl) ⟨['f', 'a', 'l', 's'], 'e', rfl, by decide⟩ h
      rw [if_neg h5] at h
      by_cases h6 : c = 'n'
      · subst h6
        rw [if_pos rfl] at h
        exact step_lit 'n' ['u', 'l', 'l'] .jnull t v r
          (fun g u => rfl) ⟨['n', 'u', 'l'], 'l', rfl, by decide⟩ h
      rw [if_neg h6] at h
      by_cases h7 : c = 'N'
      · subst h7
        rw [if_pos rfl] at h
        exact step_lit 'N' ['a', 'N'] (.jnum ['N', 'a', 'N']) t v r
          (fun g u => rfl) ⟨['N', 'a'], 'N', rfl, by decide⟩ h
      rw [if_neg h7] at h
      by_cases h8 : c = 'I'
      · subst h8
        rw [if_pos rfl] at h
        exact step_lit 'I' ['n', 'f', 'i', 'n', 'i', 't', 'y']
          (.jnum ['I', 'n', 'f', 'i', 'n', 'i', 't', 'y']) t v r
          (fun g u => rfl)
          ⟨['I', 'n', 'f', 'i', 'n', 'i', 't'], 'y', rfl, by decide⟩ h
      rw [if_neg h8] at h
      by_cases h9 : c = '-'
      · subst h9
        rw [if_pos rfl] at h
        exact step_minus t v r h
      rw [if_neg h9] at h
      by_cases h10 : c.isDigit
      · rw [if_pos h10] at h
        refine step_digit c t v r (by simp [isNumChar, h10]) (fun g u => ?_) h
        rw [pv.eq_3, if_neg h1, if_neg h2, if_neg h3, if_neg h4, if_neg h5,
          if_neg h6, if_neg h7, if_neg h8, if_neg h9, if_pos h10]
      · rw [if_neg h10] at h
        cases h



theorem json_loads_strip (x : String) (v : Json)
    (h : json_loads x = some v) : json_loads (pyStrip x) = some v := by
  simp only [json_loads] at h
  cases hpv : pv (x.toList.length + 1) (x.toList.dropWhile wsJ) with
  | none => rw [hpv] at h; cases h
  | some p =>
    obtain ⟨v0, r⟩ := p
    simp only [hpv] at h
    by_cases hall : r.all wsJ = true
    case neg => rw [if_neg hall] at h; cases h
    case pos =>
    rw [if_pos hall] at h
    simp only [Option.some.injEq] at h
    subst h
    obtain ⟨c, t, hct, hjs⟩ := pv_start _ _ _ _ hpv
    obtain ⟨hcp, hcw⟩ := jStart_not_ws hjs
    obtain ⟨cc, hsp, hend, ext⟩ :=
      (parse_split_ext (x.toList.length + 1)).1 _ _ _ hpv
    obtain ⟨c0, d, hccd, hdws⟩ := hend
    obtain ⟨c1, cc', hcc⟩ : ∃ c1 cc', cc = c1 :: cc' := by
      cases cc with
      | nil => simp at hccd
      | cons a b => exact ⟨a, b, rfl⟩
    have hccr : cc ++ r = c :: t := by rw [← hsp, hct]
    have hc1 : c1 = c := by
      rw [hcc] at hccr
      simp only [List.cons_append, List.cons.injEq] at hccr
      exact hccr.1
    have htw : (x.toList.takeWhile wsJ).all isPyWs = true := by
      have h1 : (x.toList.takeWhile wsJ).all wsJ = true := takeWhile_all _
      rw [List.all_eq_true] at h1 ⊢
      exact fun y hy => wsJ_isPyWs (h1 y hy)
    have hrp : r.all isPyWs = true := by
      rw [List.all_eq_true] at hall ⊢
      exact fun y hy => wsJ_isPyWs (hall y hy)
    have hxl : x.toList = x.toList.takeWhile wsJ ++ (cc ++ r) := by
      conv_lhs =>
        rw [← List.takeWhile_append_dropWhile (p := wsJ) (l := x.toList), hsp]
    have hstrip : stripChars x.toList = cc := by
      have hd1 : x.toList.dropWhile isPyWs = cc ++ r := by
        conv_lhs =>
          rw [hxl, dropWhile_append_all _ htw, hcc, List.cons_append,
            List.dropWhile_cons_of_neg
              (show ¬isPyWs c1 = true by rw [hc1]; simp [hcp])]
        rw [hcc, List.cons_append]
      have hd2 : (cc ++ r).reverse.dropWhile isPyWs = cc.reverse := by
        rw [List.reverse_append,
          dropWhile_append_all _ (by rw [List.all_reverse]; exact hrp),
          hccd, List.reverse_append]
        simp only [List.reverse_singleton, List.singleton_append]
        exact List.dropWhile_cons_of_neg (by simp [hdws])
      unfold stripChars
      rw [hd1, hd2, List.reverse_reverse]
    have hccdw : cc.dropWhile wsJ = cc := by
      rw [hcc]
      exact List.dropWhile_cons_of_neg (by rw [hc1]; simp [hcw])
    have hext := ext [] (cc.length + 1) okB_nil (le_refl _)
    rw [List.append_nil] at hext
    have htl : (pyStrip x).toList = cc := by
      have h0 : (pyStrip x).toList = stripChars x.toList := rfl
      rw [h0, hstrip]
    simp only [json_loads, htl, hccdw, hext]
    simp

/-- C5 (counterexample): the three-character input `"{"` — a valid JSON
string whose contents is one brace — is altered by `fix_truncated_json`
into `"{"}`, which no longer parses: the naive delimiter count sees the
brace inside the string literal. -/
theorem c5_repair_alters_valid_input :
    json_loads ("\"\x7b\"") = some (.jstr [lbrace]) ∧
    fix_truncated_json ("\"\x7b\"") = "\"\x7b\"\x7d" ∧
    ("\"\x7b\"\x7d" : String) ≠ ("\"\x7b\"" : String) ∧
    json_loads (fix_truncated_json ("\"\x7b\"")) = none :=
  ⟨rfl, rfl, by decide, rfl⟩

/-- C5 as amended: on an already-valid input whose naive counts are
balanced (equal braces, equal brackets, even quotes — i.e. whose string
literals do not unbalance the count), the repair only strips surrounding
whitespace and the parse result of the repaired text is identical to that
of the original; in particular an input with no surrounding whitespace is
returned unchanged.  (Valid inputs with naively unbalanced counts can be
broken, per the counterexample.) -/
theorem c5_repair_idempotent_amended (x : String) (v : Json)
    (hv : json_loads x = some v)
    (hbc : pyCount (pyStrip x) lbrace = pyCount (pyStrip x) rbrace)
    (hbk : pyCount (pyStrip x) '[' = pyCount (pyStrip x) ']')
    (hq : pyCount (pyStrip x) '\"' % 2 = 0) :
    fix_truncated_json x = pyStrip x ∧
    json_loads (fix_truncated_json x) = some v ∧
    (pyStrip x = x → fix_truncated_json x = x) := by
  have hq1 : ¬ pyCount (pyStrip x) '\"' % 2 = 1 := by omega
  have h1 : pyCount (pyStrip x) '[' - pyCount (pyStrip x) ']' = 0 := by omega
  have h2 : pyCount (pyStrip x) lbrace - pyCount (pyStrip x) rbrace = 0 := by omega
  have hfx : fix_truncated_json x = pyStrip x := by
    simp [fix_truncated_json, hq1, h1, h2]
  refine ⟨hfx, ?_, fun hx => hfx.trans hx⟩
  rw [hfx]
  exact json_loads_strip x v hv

/-- Witness for C5 as amended: the valid, balanced input `\x20\x7b\x7d\x20`
(surrounded by one space on each side) is merely stripped to `\x7b\x7d`,
whose parse is identical to the original's. -/
theorem c5_repair_idempotent_amended_witness :
    fix_truncated_json (" \x7b\x7d ") = ("\x7b\x7d" : String) ∧
    json_loads (fix_truncated_json (" \x7b\x7d ")) = some (.jobj []) :=
  ⟨(c5_repair_idempotent_amended (" \x7b\x7d ") (.jobj []) rfl (by decide)
      (by decide) (by decide)).1.trans (by decide),
    (c5_repair_idempotent_amended (" \x7b\x7d ") (.jobj []) rfl (by decide)
      (by decide) (by decide)).2.1⟩

/-- `insertDesc` produces a permutation of consing. -/
theorem insertDesc_perm (p : String × Nat) :
    ∀ l : List (String × Nat), (insertDesc p l).Perm (p :: l)
  | [] => List.Perm.refl _
  | q :: t => by
    by_cases h : p.2 ≤ q.2
    · simpa [insertDesc, h] using
        ((insertDesc_perm p t).cons q).trans (List.Perm.swap p q t)
    · simp [insertDesc, h]

/-- `sortDesc` permutes its input. -/
theorem sortDesc_perm : ∀ l : List (String × Nat), (sortDesc l).Perm l
  | [] => List.Perm.refl _
  | p :: t => (insertDesc_perm p (sortDesc t)).trans ((sortDesc_perm t).cons p)

/-- `insertDesc` preserves descending sortedness. -/
theorem insertDesc_pairwise (p : String × Nat) :
    ∀ l : List (String × Nat), l.Pairwise (fun a b => b.2 ≤ a.2) →
      (insertDesc p l).Pairwise (fun a b => b.2 ≤ a.2)
  | [], _ => by simp [insertDesc]
  | q :: t, h => by
    rcases List.pairwise_cons.mp h with ⟨hq, ht⟩
    by_cases hpq : p.2 ≤ q.2
    · simp only [insertDesc, hpq, if_pos]
      refine List.pairwise_cons.mpr ⟨?_, insertDesc_pairwise p t ht⟩
      intro b hb
      rcases List.mem_cons.mp (((insertDesc_perm p t).mem_iff).mp hb) with hb | hb
      · simpa [hb] using hpq
      · exact hq b hb
    · simp only [insertDesc, hpq, if_neg, not_false_iff]
      refine List.pairwise_cons.mpr ⟨?_, h⟩
      intro b hb
      rcases List.mem_cons.mp hb with hb | hb
      · subst hb; omega
      · have := hq b hb; omega

/-- `sortDesc` sorts by descending count. -/
theorem sortDesc_pairwise :
    ∀ l : List (String × Nat), (sortDesc l).Pairwise (fun a b => b.2 ≤ a.2)
  | [] => List.Pairwise.nil
  | p :: t => insertDesc_pairwise p (sortDesc t) (sortDesc_pairwise t)

/-- Every member of `topicGroups store` is a representative topic of the
store together with the size of its case-insensitive group. -/
theorem topicGroups_mem (store : List CarouselRow) (p : String × Nat)
    (hp : p ∈ topicGroups store) :
    (∃ r ∈ store, r.topic = p.1) ∧
    p.2 = store.countP (fun r => lowerStr r.topic = lowerStr p.1) := by
  rcases List.mem_map.mp hp with ⟨k, hk, hpk⟩
  have hkmem : k ∈ List.map (fun r => lowerStr r.topic) store := List.mem_dedup.mp hk
  rcases List.mem_map.mp hkmem with ⟨r1, hr1, hk1⟩
  have hfind : (List.find? (fun r => lowerStr r.topic = k) store).isSome := by
    rw [List.find?_isSome]
    exact ⟨r1, hr1, by simp [hk1]⟩
  rcases Option.isSome_iff_exists.mp hfind with ⟨r0, hr0⟩
  have hr0mem : r0 ∈ store := List.mem_of_find?_eq_some hr0
  have hr0top : lowerStr r0.topic = k := by
    have := List.find?_some hr0
    simpa using this
  rw [← hpk]
  refine ⟨⟨r0, hr0mem, by simp [hr0]⟩, ?_⟩
  simp only [hr0]
  rw [hr0top]

/-- The case-insensitive key of every store row occurs in `topicGroups`. -/
theorem topicGroups_covers (store : List CarouselRow) (r : CarouselRow)
    (hr : r ∈ store) :
    ∃ p ∈ topicGroups store, lowerStr p.1 = lowerStr r.topic ∧
      p.2 = store.countP (fun r2 => lowerStr r2.topic = lowerStr r.topic) := by
  have hk : lowerStr r.topic ∈
      (List.map (fun r2 => lowerStr r2.topic) store).dedup :=
    List.mem_dedup.mpr (List.mem_map.mpr ⟨r, hr, rfl⟩)
  refine ⟨_, List.mem_map.mpr ⟨lowerStr r.topic, hk, rfl⟩, ?_, ?_⟩
  · have hfind : (List.find? (fun r2 => lowerStr r2.topic = lowerStr r.topic)
        store).isSome := by
      rw [List.find?_isSome]
      exact ⟨r, hr, by simp⟩
    rcases Option.isSome_iff_exists.mp hfind with ⟨r0, hr0⟩
    have hr0top : lowerStr r0.topic = lowerStr r.topic := by
      have := List.find?_some hr0
      simpa using this
    simp [hr0, hr0top]
  · rfl

/-- C9: `get_carousel_stats` on an empty store returns zero for each of
the three counts and an empty popular-topics list (and, being a total
function, never throws); on any store the popular-topics list has at most
five entries, each pairing a topic of some stored row with the exact size
of its case-insensitive group, in descending order of frequency, and any
case-insensitive group not listed is no more frequent than any listed
one. -/
theorem c9_stats_aggregate (now : Nat) (store : List CarouselRow) :
    get_carousel_stats now [] =
      { total_carousels := 0, unique_users := 0, recent_carousels := 0,
        popular_topics := [] } ∧
    (get_carousel_stats now store).popular_topics.length ≤ 5 ∧
    (∀ p ∈ (get_carousel_stats now store).popular_topics,
       (∃ r ∈ store, r.topic = p.1) ∧
       p.2 = store.countP (fun r => lowerStr r.topic = lowerStr p.1)) ∧
    (get_carousel_stats now store).popular_topics.Pairwise
      (fun a b => b.2 ≤ a.2) ∧
    (∀ r ∈ store,
       lowerStr r.topic ∉
         (get_carousel_stats now store).popular_topics.map
           (fun p => lowerStr p.1) →
       ∀ p ∈ (get_carousel_stats now store).popular_topics,
         store.countP (fun r2 => lowerStr r2.topic = lowerStr r.topic) ≤ p.2) := by
  refine ⟨rfl, ?_, ?_, ?_, ?_⟩
  · exact le_trans (le_of_eq (by simp [get_carousel_stats]))
      (List.length_take_le 5 (sortDesc (topicGroups store)))
  · intro p hp
    have hmem : p ∈ sortDesc (topicGroups store) :=
      List.mem_of_mem_take (by simpa [get_carousel_stats] using hp)
    exact topicGroups_mem store p
      ((sortDesc_perm (topicGroups store)).mem_iff.mp hmem)
  · exact (sortDesc_pairwise (topicGroups store)).sublist
      (List.take_sublist 5 (sortDesc (topicGroups store)))
  · intro r hr hnot p hp
    rcases topicGroups_covers store r hr with ⟨g, hg, hgk, hgc⟩
    have hgs : g ∈ sortDesc (topicGroups store) :=
      (sortDesc_perm (topicGroups store)).mem_iff.mpr hg
    have hsplit := List.take_append_drop 5 (sortDesc (topicGroups store))
    have hpw : (List.take 5 (sortDesc (topicGroups store)) ++
        List.drop 5 (sortDesc (topicGroups store))).Pairwise
          (fun a b => b.2 ≤ a.2) := by
      rw [hsplit]; exact sortDesc_pairwise (topicGroups store)
    have hgdrop : g ∈ List.drop 5 (sortDesc (topicGroups store)) := by
      rcases (List.mem_append.mp (by rw [hsplit]; exact hgs)) with hgt | hgd
      · exact absurd (List.mem_map.mpr ⟨g, by simpa [get_carousel_stats] using hgt, hgk⟩)
          hnot
      · exact hgd
    have hptake : p ∈ List.take 5 (sortDesc (topicGroups store)) := by
      simpa [get_carousel_stats] using hp
    have := (List.pairwise_append.mp hpw).2.2 p hptake g hgdrop
    omega

/-- Witness for C9 on a two-row store whose topics differ only by case. -/
theorem c9_stats_aggregate_witness :
    (get_carousel_stats 100000 [] =
      { total_carousels := 0, unique_users := 0, recent_carousels := 0,
        popular_topics := [] }) ∧
    (get_carousel_stats 100000
      [{ carousel_id := "a", user_id := 1, topic := "Sleep",
         generated_content := "g", html_content := "h", public_url := none,
         file_path := none, created_at := 99999 },
       { carousel_id := "b", user_id := 2, topic := "SLEEP",
         generated_content := "g", html_content := "h", public_url := none,
         file_path := none, created_at := 1 }]).popular_topics.length ≤ 5 :=
  ⟨(c9_stats_aggregate 100000 []).1,
   (c9_stats_aggregate 100000
     [{ carousel_id := "a", user_id := 1, topic := "Sleep",
        generated_content := "g", html_content := "h", public_url := none,
        file_path := none, created_at := 99999 },
      { carousel_id := "b", user_id := 2, topic := "SLEEP",
        generated_content := "g", html_content := "h", public_url := none,
        file_path := none, created_at := 1 }]).2.1⟩

end Carousels
